import Mathlib

set_option linter.unusedVariables false

namespace SafeJsonLoader

/-- Model of a JavaScript runtime value produced by JSON.parse: primitives,
arrays, and objects. An object node carries its own enumerable keys in
insertion order, plus a flag recording whether the object inherits from the
shared object template (true for objects produced by JSON.parse, false for
objects rebuilt from a null template, as the sanitizer does). -/
inductive JsValue where
  | vstr (s : String)
  | vnum (n : Int)
  | vbool (b : Bool)
  | vnull
  | varr (items : List JsValue)
  | vobj (protoChain : Bool) (fields : List (String × JsValue))

/-- Loader error model: a message plus a stable machine-readable code,
mirroring the JsonLoaderError class. -/
structure JsonLoaderError where
  message : String
  code : String
  deriving DecidableEq, Repr

/-- The pollution key set stripped by the sanitizer. -/
def POLLUTION_KEYS : List String := ["__proto__", "constructor", "prototype"]

/-- Names resolvable through the shared object template in JavaScript when an
object inherits from it; lookups of these names on a non-rebuilt object can
yield inherited members. -/
def objectProtoKeys : List String :=
  ["constructor", "hasOwnProperty", "isPrototypeOf", "propertyIsEnumerable",
   "toLocaleString", "toString", "valueOf", "__proto__", "__defineGetter__",
   "__defineSetter__", "__lookupGetter__", "__lookupSetter__"]

/-- Own-key lookup on an object field list (first match, as JS own
properties are unique). -/
def lookupField (fields : List (String × JsValue)) (key : String) : Option JsValue :=
  match fields with
  | [] => none
  | (k, v) :: rest => if k == key then some v else lookupField rest key

/-- Result of a JS property lookup: either an own data property or a member
inherited through the object template chain. -/
inductive PropResult where
  | own (v : JsValue)
  | inherited

/-- JS property lookup on an object node: own keys first, then (only when the
object inherits from the shared template) members of the template. -/
def objLookup (protoChain : Bool) (fields : List (String × JsValue))
    (key : String) : Option PropResult :=
  match lookupField fields key with
  | some v => some (.own v)
  | none =>
    if protoChain && objectProtoKeys.contains key then some .inherited else none

/-- The error thrown by deepSanitize when the depth circuit-breaker trips. -/
def depthSanitationError (maxDepth : Nat) : JsonLoaderError :=
  ⟨"Maximum JSON depth exceeded during sanitation (depth > "
      ++ toString maxDepth ++ ").",
   "JSON_DEPTH_SANITATION_LIMIT"⟩

mutual

/-- Embedding of deepSanitize: fails when depth exceeds maxDepth, copies
arrays elementwise, rebuilds objects from a null template keeping only
non-pollution keys, and passes all other values through. -/
def deepSanitize (value : JsValue) (depth maxDepth : Nat) :
    Except JsonLoaderError JsValue :=
  if depth > maxDepth then
    .error (depthSanitationError maxDepth)
  else
    match value with
    | .varr items =>
      match sanitizeItems items (depth + 1) maxDepth with
      | .error e => .error e
      | .ok out => .ok (.varr out)
    | .vobj _ fields =>
      match sanitizeFields fields (depth + 1) maxDepth with
      | .error e => .error e
      | .ok out => .ok (.vobj false out)
    | v => .ok v

/-- The array half of deepSanitize: sanitize each element in order. -/
def sanitizeItems (items : List JsValue) (depth maxDepth : Nat) :
    Except JsonLoaderError (List JsValue) :=
  match items with
  | [] => .ok []
  | v :: rest =>
    match deepSanitize v depth maxDepth with
    | .error e => .error e
    | .ok w =>
      match sanitizeItems rest depth maxDepth with
      | .error e => .error e
      | .ok ws => .ok (w :: ws)

/-- The object half of deepSanitize: skip pollution keys, sanitize the
remaining values in key order. -/
def sanitizeFields (fields : List (String × JsValue)) (depth maxDepth : Nat) :
    Except JsonLoaderError (List (String × JsValue)) :=
  match fields with
  | [] => .ok []
  | (k, v) :: rest =>
    if POLLUTION_KEYS.contains k then
      sanitizeFields rest depth maxDepth
    else
      match deepSanitize v depth maxDepth with
      | .error e => .error e
      | .ok w =>
        match sanitizeFields rest depth maxDepth with
        | .error e => .error e
        | .ok ws => .ok ((k, w) :: ws)

end

/-- Embedding of sanitizePrototypePollution: deepSanitize from depth 0 with
the caller-supplied bound, defaulting to 1000. -/
def sanitizePrototypePollution (input : JsValue) (maxDepthOpt : Option Nat) :
    Except JsonLoaderError JsValue :=
  deepSanitize input 0 (maxDepthOpt.getD 1000)

mutual

/-- Embedding of calculateDepth: null and scalars return the current depth,
arrays and objects fold a running maximum over children at depth plus one. -/
def calculateDepth (value : JsValue) (currentDepth : Nat) : Nat :=
  match value with
  | .vnull => currentDepth
  | .varr items => depthItems items currentDepth currentDepth
  | .vobj _ fields => depthFields fields currentDepth currentDepth
  | _ => currentDepth

/-- The array loop of calculateDepth with its running maximum accumulator. -/
def depthItems (items : List JsValue) (currentDepth acc : Nat) : Nat :=
  match items with
  | [] => acc
  | v :: rest =>
    depthItems rest currentDepth (max acc (calculateDepth v (currentDepth + 1)))

/-- The object loop of calculateDepth with its running maximum accumulator. -/
def depthFields (fields : List (String × JsValue)) (currentDepth acc : Nat) : Nat :=
  match fields with
  | [] => acc
  | (_, v) :: rest =>
    depthFields rest currentDepth (max acc (calculateDepth v (currentDepth + 1)))

end

mutual

/-- A value is fully sanitized when every object node in it was rebuilt from
a null template and carries no pollution key. -/
def isFullySanitized (value : JsValue) : Bool :=
  match value with
  | .varr items => itemsSanitized items
  | .vobj protoChain fields => !protoChain && fieldsSanitized fields
  | _ => true

/-- Elementwise sanitization check for array contents. -/
def itemsSanitized (items : List JsValue) : Bool :=
  match items with
  | [] => true
  | v :: rest => isFullySanitized v && itemsSanitized rest

/-- Fieldwise sanitization check for object contents. -/
def fieldsSanitized (fields : List (String × JsValue)) : Bool :=
  match fields with
  | [] => true
  | (k, v) :: rest =>
    !(POLLUTION_KEYS.contains k) && isFullySanitized v && fieldsSanitized rest

end

/-- Subvalue w v means that w occurs somewhere inside v, descending through
array elements and object field values. -/
inductive Subvalue : JsValue → JsValue → Prop where
  | refl (v : JsValue) : Subvalue v v
  | inArr {w v : JsValue} {items : List JsValue} :
      v ∈ items → Subvalue w v → Subvalue w (.varr items)
  | inObj {w v : JsValue} {k : String} {p : Bool}
      {fields : List (String × JsValue)} :
      (k, v) ∈ fields → Subvalue w v → Subvalue w (.vobj p fields)

/- ------------------------------------------------------------------ -/
/- Sanitizer metatheory                                               -/
/- ------------------------------------------------------------------ -/

theorem sizeOf_lt_of_mem_items {v : JsValue} {items : List JsValue}
    (h : v ∈ items) : sizeOf v < sizeOf (JsValue.varr items) := by
  have h1 := List.sizeOf_lt_of_mem h
  simp only [JsValue.varr.sizeOf_spec]
  omega

theorem sizeOf_lt_of_mem_fields {k : String} {v : JsValue} {p : Bool}
    {fields : List (String × JsValue)} (h : (k, v) ∈ fields) :
    sizeOf v < sizeOf (JsValue.vobj p fields) := by
  have h1 := List.sizeOf_lt_of_mem h
  have h2 : sizeOf v < sizeOf (k, v) := by simp
  simp only [JsValue.vobj.sizeOf_spec]
  omega

/-- Everything the induction establishes about a successful sanitization:
the output is fully sanitized, sanitizing again returns it unchanged, and
its structural depth stays within the bound. -/
def SanOkProp (v : JsValue) : Prop :=
  ∀ d m v', deepSanitize v d m = .ok v' →
    isFullySanitized v' = true ∧ deepSanitize v' d m = .ok v' ∧
    calculateDepth v' d ≤ m

/-- A failed sanitization can only produce the depth circuit-breaker error. -/
def SanErrProp (v : JsValue) : Prop :=
  ∀ d m e, deepSanitize v d m = .error e → e = depthSanitationError m

theorem depthItems_le (items : List JsValue) (c : Nat) {m : Nat} :
    ∀ acc, acc ≤ m → (∀ v ∈ items, calculateDepth v (c + 1) ≤ m) →
      depthItems items c acc ≤ m := by
  induction items with
  | nil => intro acc hacc _; simpa [depthItems] using hacc
  | cons v rest ih =>
    intro acc hacc hall
    simp only [depthItems]
    exact ih _ (max_le hacc (hall v (List.mem_cons_self v rest)))
      (fun w hw => hall w (List.mem_cons_of_mem v hw))

theorem depthFields_le (fields : List (String × JsValue)) (c : Nat) {m : Nat} :
    ∀ acc, acc ≤ m → (∀ kv ∈ fields, calculateDepth kv.2 (c + 1) ≤ m) →
      depthFields fields c acc ≤ m := by
  induction fields with
  | nil => intro acc hacc _; simpa [depthFields] using hacc
  | cons kv rest ih =>
    obtain ⟨k, v⟩ := kv
    intro acc hacc hall
    simp only [depthFields]
    exact ih _ (max_le hacc (hall (k, v) (List.mem_cons_self _ rest)))
      (fun w hw => hall w (List.mem_cons_of_mem _ hw))

theorem sanitizeItems_props :
    ∀ (items : List JsValue),
      (∀ v ∈ items, SanOkProp v ∧ SanErrProp v) → ∀ (d m : Nat),
      (∀ out, sanitizeItems items d m = .ok out →
        itemsSanitized out = true ∧ sanitizeItems out d m = .ok out ∧
        ∀ w ∈ out, calculateDepth w d ≤ m) ∧
      (∀ e, sanitizeItems items d m = .error e → e = depthSanitationError m) := by
  intro items
  induction items with
  | nil =>
    intro _ d m
    refine ⟨?_, ?_⟩
    · intro out hout
      simp only [sanitizeItems] at hout
      cases hout
      exact ⟨rfl, rfl, by simp⟩
    · intro e he
      simp [sanitizeItems] at he
  | cons v rest ih =>
    intro H d m
    have Hv := H v (List.mem_cons_self v rest)
    have ihdm := ih (fun w hw => H w (List.mem_cons_of_mem v hw)) d m
    refine ⟨?_, ?_⟩
    · intro out hout
      cases hsv : deepSanitize v d m with
      | error e2 => simp [sanitizeItems, hsv] at hout
      | ok w =>
        cases hsr : sanitizeItems rest d m with
        | error e2 => simp [sanitizeItems, hsv, hsr] at hout
        | ok ws =>
          simp only [sanitizeItems, hsv, hsr] at hout
          cases hout
          obtain ⟨hw1, hw2, hw3⟩ := Hv.1 d m w hsv
          obtain ⟨hr1, hr2, hr3⟩ := (ihdm.1) ws hsr
          refine ⟨by simp [itemsSanitized, hw1, hr1], ?_, ?_⟩
          · simp [sanitizeItems, hw2, hr2]
          · intro u hu
            rcases List.mem_cons.mp hu with h1 | h1
            · subst h1; exact hw3
            · exact hr3 u h1
    · intro e he
      cases hsv : deepSanitize v d m with
      | error e2 =>
        simp only [sanitizeItems, hsv] at he
        cases he
        exact Hv.2 d m _ hsv
      | ok w =>
        cases hsr : sanitizeItems rest d m with
        | error e2 =>
          simp only [sanitizeItems, hsv, hsr] at he
          cases he
          exact ihdm.2 _ hsr
        | ok ws => simp [sanitizeItems, hsv, hsr] at he

theorem sanitizeFields_props :
    ∀ (fields : List (String × JsValue)),
      (∀ kv ∈ fields, SanOkProp kv.2 ∧ SanErrProp kv.2) → ∀ (d m : Nat),
      (∀ out, sanitizeFields fields d m = .ok out →
        fieldsSanitized out = true ∧ sanitizeFields out d m = .ok out ∧
        ∀ kv ∈ out, calculateDepth kv.2 d ≤ m) ∧
      (∀ e, sanitizeFields fields d m = .error e →
        e = depthSanitationError m) := by
  intro fields
  induction fields with
  | nil =>
    intro _ d m
    refine ⟨?_, ?_⟩
    · intro out hout
      simp only [sanitizeFields] at hout
      cases hout
      exact ⟨rfl, rfl, by simp⟩
    · intro e he
      simp [sanitizeFields] at he
  | cons kv rest ih =>
    obtain ⟨k, v⟩ := kv
    intro H d m
    have Hv := H (k, v) (List.mem_cons_self _ rest)
    have ihdm := ih (fun w hw => H w (List.mem_cons_of_mem _ hw)) d m
    by_cases hk : POLLUTION_KEYS.contains k = true
    · refine ⟨?_, ?_⟩
      · intro out hout
        simp only [sanitizeFields] at hout
        rw [if_pos hk] at hout
        exact (ihdm.1) out hout
      · intro e he
        simp only [sanitizeFields] at he
        rw [if_pos hk] at he
        exact ihdm.2 e he
    · refine ⟨?_, ?_⟩
      · intro out hout
        cases hsv : deepSanitize v d m with
        | error e2 =>
          simp only [sanitizeFields, hsv] at hout
          rw [if_neg hk] at hout
          exact Except.noConfusion hout
        | ok w =>
          cases hsr : sanitizeFields rest d m with
          | error e2 =>
            simp only [sanitizeFields, hsv, hsr] at hout
            rw [if_neg hk] at hout
            exact Except.noConfusion hout
          | ok ws =>
            simp only [sanitizeFields, hsv, hsr] at hout
            rw [if_neg hk] at hout
            cases hout
            obtain ⟨hw1, hw2, hw3⟩ := Hv.1 d m w hsv
            obtain ⟨hr1, hr2, hr3⟩ := (ihdm.1) ws hsr
            refine ⟨?_, ?_, ?_⟩
            · simp only [fieldsSanitized, Bool.and_eq_true, Bool.not_eq_true']
              exact ⟨⟨by simpa using hk, hw1⟩, hr1⟩
            · simp only [sanitizeFields, hw2, hr2]
              rw [if_neg hk]
            · intro u hu
              rcases List.mem_cons.mp hu with h1 | h1
              · subst h1; exact hw3
              · exact hr3 u h1
      · intro e he
        cases hsv : deepSanitize v d m with
        | error e2 =>
          simp only [sanitizeFields, hsv] at he
          rw [if_neg hk] at he
          cases he
          exact Hv.2 d m _ hsv
        | ok w =>
          cases hsr : sanitizeFields rest d m with
          | error e2 =>
            simp only [sanitizeFields, hsv, hsr] at he
            rw [if_neg hk] at he
            cases he
            exact ihdm.2 _ hsr
          | ok ws =>
            simp only [sanitizeFields, hsv, hsr] at he
            rw [if_neg hk] at he
            exact Except.noConfusion he

theorem sanitize_master (n : Nat) :
    ∀ (v : JsValue), sizeOf v < n → SanOkProp v ∧ SanErrProp v := by
  induction n with
  | zero => intro v hv; omega
  | succ n ih =>
    intro v hv
    cases v with
    | varr items =>
      have Hel : ∀ w ∈ items, SanOkProp w ∧ SanErrProp w := by
        intro w hw
        have := sizeOf_lt_of_mem_items hw
        exact ih w (by omega)
      refine ⟨?_, ?_⟩
      · intro d m v' h
        by_cases hd : d > m
        · simp [deepSanitize, hd] at h
        · cases hsi : sanitizeItems items (d + 1) m with
          | error e2 => simp [deepSanitize, hd, hsi] at h
          | ok out =>
            simp only [deepSanitize, hd, if_false, hsi] at h
            cases h
            obtain ⟨h1, h2, h3⟩ := (sanitizeItems_props items Hel (d + 1) m).1 out hsi
            refine ⟨by simpa [isFullySanitized] using h1, ?_, ?_⟩
            · simp [deepSanitize, hd, h2]
            · simp only [calculateDepth]
              exact depthItems_le out d d (by omega) h3
      · intro d m e h
        by_cases hd : d > m
        · simp only [deepSanitize, hd, if_true] at h
          cases h
          rfl
        · cases hsi : sanitizeItems items (d + 1) m with
          | error e2 =>
            simp only [deepSanitize, hd, if_false, hsi] at h
            cases h
            exact (sanitizeItems_props items Hel (d + 1) m).2 _ hsi
          | ok out => simp [deepSanitize, hd, hsi] at h
    | vobj p fields =>
      have Hel : ∀ kv ∈ fields, SanOkProp kv.2 ∧ SanErrProp kv.2 := by
        intro kv hkv
        obtain ⟨k, w⟩ := kv
        have := sizeOf_lt_of_mem_fields (p := p) hkv
        exact ih w (by omega)
      refine ⟨?_, ?_⟩
      · intro d m v' h
        by_cases hd : d > m
        · simp [deepSanitize, hd] at h
        · cases hsf : sanitizeFields fields (d + 1) m with
          | error e2 => simp [deepSanitize, hd, hsf] at h
          | ok out =>
            simp only [deepSanitize, hd, if_false, hsf] at h
            cases h
            obtain ⟨h1, h2, h3⟩ := (sanitizeFields_props fields Hel (d + 1) m).1 out hsf
            refine ⟨by simpa [isFullySanitized] using h1, ?_, ?_⟩
            · simp [deepSanitize, hd, h2]
            · simp only [calculateDepth]
              exact depthFields_le out d d (by omega) h3
      · intro d m e h
        by_cases hd : d > m
        · simp only [deepSanitize, hd, if_true] at h
          cases h
          rfl
        · cases hsf : sanitizeFields fields (d + 1) m with
          | error e2 =>
            simp only [deepSanitize, hd, if_false, hsf] at h
            cases h
            exact (sanitizeFields_props fields Hel (d + 1) m).2 _ hsf
          | ok out => simp [deepSanitize, hd, hsf] at h
    | vstr s =>
      refine ⟨?_, ?_⟩
      · intro d m v' h
        by_cases hd : d > m
        · simp [deepSanitize, hd] at h
        · simp only [deepSanitize, hd, if_false] at h
          cases h
          exact ⟨rfl, by simp [deepSanitize, hd], by simp [calculateDepth]; omega⟩
      · intro d m e h
        by_cases hd : d > m
        · simp only [deepSanitize, hd, if_true] at h
          cases h
          rfl
        · simp [deepSanitize, hd] at h
    | vnum x =>
      refine ⟨?_, ?_⟩
      · intro d m v' h
        by_cases hd : d > m
        · simp [deepSanitize, hd] at h
        · simp only [deepSanitize, hd, if_false] at h
          cases h
          exact ⟨rfl, by simp [deepSanitize, hd], by simp [calculateDepth]; omega⟩
      · intro d m e h
        by_cases hd : d > m
        · simp only [deepSanitize, hd, if_true] at h
          cases h
          rfl
        · simp [deepSanitize, hd] at h
    | vbool b =>
      refine ⟨?_, ?_⟩
      · intro d m v' h
        by_cases hd : d > m
        · simp [deepSanitize, hd] at h
        · simp only [deepSanitize, hd, if_false] at h
          cases h
          exact ⟨rfl, by simp [deepSanitize, hd], by simp [calculateDepth]; omega⟩
      · intro d m e h
        by_cases hd : d > m
        · simp only [deepSanitize, hd, if_true] at h
          cases h
          rfl
        · simp [deepSanitize, hd] at h
    | vnull =>
      refine ⟨?_, ?_⟩
      · intro d m v' h
        by_cases hd : d > m
        · simp [deepSanitize, hd] at h
        · simp only [deepSanitize, hd, if_false] at h
          cases h
          exact ⟨rfl, by simp [deepSanitize, hd], by simp [calculateDepth]; omega⟩
      · intro d m e h
        by_cases hd : d > m
        · simp only [deepSanitize, hd, if_true] at h
          cases h
          rfl
        · simp [deepSanitize, hd] at h

theorem sanitize_props (v : JsValue) : SanOkProp v ∧ SanErrProp v :=
  sanitize_master (sizeOf v + 1) v (by omega)

theorem itemsSanitized_mem {items : List JsValue} {v : JsValue}
    (h : itemsSanitized items = true) (hv : v ∈ items) :
    isFullySanitized v = true := by
  induction items with
  | nil => simp at hv
  | cons a rest ih =>
    simp only [itemsSanitized, Bool.and_eq_true] at h
    rcases List.mem_cons.mp hv with h1 | h1
    · subst h1; exact h.1
    · exact ih h.2 h1

theorem fieldsSanitized_mem {fields : List (String × JsValue)} {k : String}
    {v : JsValue} (h : fieldsSanitized fields = true) (hv : (k, v) ∈ fields) :
    isFullySanitized v = true := by
  induction fields with
  | nil => simp at hv
  | cons a rest ih =>
    obtain ⟨k', v'⟩ := a
    simp only [fieldsSanitized, Bool.and_eq_true] at h
    rcases List.mem_cons.mp hv with h1 | h1
    · cases h1; exact h.1.2
    · exact ih h.2 h1

theorem isFullySanitized_subvalue {w v : JsValue} (hs : Subvalue w v) :
    isFullySanitized v = true → isFullySanitized w = true := by
  induction hs with
  | refl => exact id
  | inArr hmem hsub ih =>
    intro hv
    simp only [isFullySanitized] at hv
    exact ih (itemsSanitized_mem hv hmem)
  | inObj hmem hsub ih =>
    intro hv
    simp only [isFullySanitized, Bool.and_eq_true] at hv
    exact ih (fieldsSanitized_mem hv.2 hmem)

theorem lookupField_pollution_none {fields : List (String × JsValue)}
    (h : fieldsSanitized fields = true) {k : String}
    (hk : k ∈ POLLUTION_KEYS) : lookupField fields k = none := by
  induction fields with
  | nil => rfl
  | cons kv rest ih =>
    obtain ⟨k', v⟩ := kv
    simp only [fieldsSanitized, Bool.and_eq_true, Bool.not_eq_true'] at h
    simp only [lookupField]
    have hne : (k' == k) = false := by
      by_contra hc
      have : k' = k := by
        have : (k' == k) = true := by
          cases hb : k' == k
          · exact absurd hb hc
          · rfl
        simpa using this
      subst this
      have : POLLUTION_KEYS.contains k' = true := by simpa using hk
      rw [this] at h
      exact absurd h.1.1 (by simp)
    rw [hne]
    simp only [Bool.false_eq_true, if_false]
    exact ih h.2

/-- On an object rebuilt from a null template, looking up any key that is not
one of its own copied keys yields nothing at all. -/
theorem objLookup_none_of_no_proto {fields : List (String × JsValue)}
    {key : String} (h : lookupField fields key = none) :
    objLookup false fields key = none := by
  simp [objLookup, h]

/- ------------------------------------------------------------------ -/
/- String and path helpers used by the loader                          -/
/- ------------------------------------------------------------------ -/

/-- Lowercasing as applied to content types and URL schemes (ASCII data). -/
def lowerStr (s : String) : String := String.mk (s.data.map Char.toLower)

/-- Whether the first list occurs at the head of the second. -/
def charsLeadWith (pat cs : List Char) : Bool :=
  match pat, cs with
  | [], _ => true
  | _ :: _, [] => false
  | a :: as, b :: bs => a == b && charsLeadWith as bs

/-- Whether the first list occurs contiguously anywhere in the second. -/
def charsInclude (pat cs : List Char) : Bool :=
  match cs with
  | [] => pat.isEmpty
  | c :: rest => charsLeadWith pat (c :: rest) || charsInclude pat rest

/-- Model of the JS String.includes method. -/
def strIncludes (s pat : String) : Bool := charsInclude pat.data s.data

/-- Model of the JS String.startsWith method. -/
def strLeadsWith (s pat : String) : Bool := charsLeadWith pat.data s.data

/-- Model of the Node path.basename function on posix paths: trailing
separators are ignored and the last path segment is returned. -/
def basename (p : String) : String :=
  let trimmed := (p.data.reverse.dropWhile (fun c => c == '/')).reverse
  String.mk ((trimmed.reverse.takeWhile (fun c => !(c == '/'))).reverse)

/-- Model of the Node path.extname function: the suffix of the last segment
from its final dot, where a dot leading the segment does not count. -/
def extname (p : String) : String :=
  let seg := (p.data.reverse.takeWhile (fun c => !(c == '/'))).reverse
  match seg with
  | [] => ""
  | _ :: rest =>
    if rest.contains '.' then
      String.mk ('.' :: (rest.reverse.takeWhile (fun c => !(c == '.'))).reverse)
    else ""

/-- Embedding of isJsonFile: the lowercased extension must be .json. -/
def isJsonFile (file : String) : Bool := lowerStr (extname file) == ".json"

/-- Embedding of isHttpUrl: the regex test for a case-insensitive http or
https scheme at the start of the string. -/
def isHttpUrl (str : String) : Bool :=
  strLeadsWith (lowerStr str) "http://" || strLeadsWith (lowerStr str) "https://"

/-- Model of the pathname of a WHATWG URL for http and https URLs: what
stands between the host and the query or fragment, or a bare slash. -/
def urlPathname (u : String) : String :=
  let cs := u.data
  let afterScheme :=
    if strLeadsWith (lowerStr u) "https://" then cs.drop 8
    else if strLeadsWith (lowerStr u) "http://" then cs.drop 7
    else cs
  let afterHost := afterScheme.dropWhile
    (fun c => !(c == '/') && !(c == '?') && !(c == '#'))
  if charsLeadWith ['/'] afterHost then
    String.mk (afterHost.takeWhile (fun c => !(c == '?') && !(c == '#')))
  else "/"

/-- Model of path.join for a directory and an entry name. -/
def pathJoin (dir file : String) : String := dir ++ "/" ++ file

/- ------------------------------------------------------------------ -/
/- Options, inputs, worlds and events                                  -/
/- ------------------------------------------------------------------ -/

/-- Caller-supplied options, each knob optional. Hooks and the logger are
modelled as observable events rather than record fields. -/
structure SafeJsonLoaderOptions where
  maxFiles : Option Nat
  maxTotalBytes : Option Nat
  maxFileBytes : Option Nat
  httpTimeoutMs : Option Nat
  maxConcurrency : Option Nat
  looseJsonContentType : Option Bool
  maxJsonDepth : Option Nat

/-- Fully resolved options after merging defaults. -/
structure ResolvedSafeJsonLoaderOptions where
  maxFiles : Nat
  maxTotalBytes : Nat
  maxFileBytes : Nat
  httpTimeoutMs : Nat
  maxConcurrency : Nat
  looseJsonContentType : Bool
  maxJsonDepth : Nat

/-- The fixed defaults from logger.ts. -/
def DEFAULT_OPTIONS : ResolvedSafeJsonLoaderOptions :=
  ⟨100, 10 * 1024 * 1024, 2 * 1024 * 1024, 8000, 5, true, 50⟩

/-- Embedding of mergeOptions: caller overrides win over defaults. -/
def mergeOptions (opts : SafeJsonLoaderOptions) : ResolvedSafeJsonLoaderOptions :=
  ⟨opts.maxFiles.getD DEFAULT_OPTIONS.maxFiles,
   opts.maxTotalBytes.getD DEFAULT_OPTIONS.maxTotalBytes,
   opts.maxFileBytes.getD DEFAULT_OPTIONS.maxFileBytes,
   opts.httpTimeoutMs.getD DEFAULT_OPTIONS.httpTimeoutMs,
   opts.maxConcurrency.getD DEFAULT_OPTIONS.maxConcurrency,
   opts.looseJsonContentType.getD DEFAULT_OPTIONS.looseJsonContentType,
   opts.maxJsonDepth.getD DEFAULT_OPTIONS.maxJsonDepth⟩

/-- A loaded file record: logical name, sanitized data, original source. -/
structure LoadedJsonFile where
  name : String
  data : JsValue
  __source : String

/-- Input accepted by the loader: a string, a URL object, or another
path-like object; the last two carry what the JS String coercion yields
for them (the href of a URL, the decoded content of a Buffer). -/
inductive JsonLoadInput where
  | strInput (s : String)
  | urlInput (href : String)
  | pathLikeInput (coerced : String)

/-- Embedding of ensureStringInput: strings pass through, every other input
is coerced with the String function rather than rejected. -/
def ensureStringInput (input : JsonLoadInput) : String :=
  match input with
  | .strInput s => s
  | .urlInput href => href
  | .pathLikeInput coerced => coerced

/-- A load can fail with a JsonLoaderError, or with an uncaught runtime
exception (for example a remote body parse rejection, which the code does
not wrap). -/
inductive LoadFailure where
  | loader (e : JsonLoaderError)
  | uncaught (msg : String)

/-- An HTTP response as observed by the loader: ok flag, status, the
content-type header when present, and the result of parsing the body. -/
structure HttpResponse where
  ok : Bool
  status : Nat
  statusText : String
  contentType : Option String
  body : Except String JsValue

/-- What the filesystem says about a path. -/
inductive StatResult where
  | missing
  | fileEntry (size : Nat) (parse : Except String JsValue)
  | dirEntry (entries : List String)
  | otherEntry

/-- The external world: filesystem responses per resolved path, HTTP
responses per URL (error for a transport failure or timeout), and path
resolution against the working directory. -/
structure World where
  stat : String → StatResult
  fetch : String → Except String HttpResponse
  resolve : String → String

/-- Observable I/O actions and hook invocations, in program order. -/
inductive IoEvent where
  | fsStat (path : String)
  | fsRead (path : String)
  | fsReadDir (path : String)
  | parseAttempt (source : String)
  | httpFetch (url : String)
  | hookLoaded (name source : String)
  | hookSkipped (source reason : String)
  deriving DecidableEq, Repr

/- ------------------------------------------------------------------ -/
/- Remote loading                                                      -/
/- ------------------------------------------------------------------ -/

/-- Embedding of fetchWithTimeout: a transport failure or timeout becomes a
REMOTE_FETCH_ERROR. -/
def fetchWithTimeout (url : String) (w : World) :
    Except JsonLoaderError HttpResponse :=
  match w.fetch url with
  | .ok res => .ok res
  | .error msg =>
    .error ⟨"Failed to fetch remote JSON at " ++ url ++ ": " ++ msg,
            "REMOTE_FETCH_ERROR"⟩

/-- Embedding of assertJsonContentType: the lowercased content-type header
must include json in loose mode, or start with application/json in strict
mode. -/
def assertJsonContentType (url : String) (res : HttpResponse)
    (opts : ResolvedSafeJsonLoaderOptions) : Except JsonLoaderError Unit :=
  let ct := res.contentType.getD ""
  let lc := lowerStr ct
  let isJson :=
    if opts.looseJsonContentType then strIncludes lc "json"
    else strLeadsWith lc "application/json"
  if !isJson then
    .error ⟨"Remote URL does not advertise JSON content-type at " ++ url
        ++ ": " ++ ct, "REMOTE_CONTENT_TYPE_ERROR"⟩
  else .ok ()

/-- Embedding of loadRemoteJson: fetch, check status, check content-type,
then parse and sanitize the body. The event list records the fetch and the
body parse attempt. -/
def loadRemoteJson (url : String) (w : World)
    (opts : ResolvedSafeJsonLoaderOptions) :
    List IoEvent × Except LoadFailure JsValue :=
  match fetchWithTimeout url w with
  | .error e => ([.httpFetch url], .error (.loader e))
  | .ok res =>
    if !res.ok then
      ([.httpFetch url],
       .error (.loader ⟨"Remote fetch failed at " ++ url ++ ": "
          ++ toString res.status ++ " " ++ res.statusText,
          "REMOTE_FETCH_STATUS_ERROR"⟩))
    else
      match assertJsonContentType url res opts with
      | .error e => ([.httpFetch url], .error (.loader e))
      | .ok _ =>
        match res.body with
        | .error msg => ([.httpFetch url, .parseAttempt url], .error (.uncaught msg))
        | .ok raw =>
          match sanitizePrototypePollution raw (some opts.maxJsonDepth) with
          | .error e => ([.httpFetch url, .parseAttempt url], .error (.loader e))
          | .ok sanitized => ([.httpFetch url, .parseAttempt url], .ok sanitized)

/-- The filter keeping only string entries of a remote index file list. -/
def asStringItem : JsValue → Option String
  | .vstr s => some s
  | _ => none

/-- The file list of a would-be index document: the document itself when it
is an array, else its own files key when that is an array. -/
def indexFileList (indexJson : JsValue) : Option (List JsValue) :=
  match indexJson with
  | .varr items => some items
  | .vobj _ fields =>
    match lookupField fields "files" with
    | some (.varr items) => some items
    | _ => none
  | _ => none

/-- The index test used by the orchestrator: an array, or an object whose
own files key is an array. -/
def isIndexShape (json : JsValue) : Bool :=
  match json with
  | .varr _ => true
  | .vobj _ fields =>
    match lookupField fields "files" with
    | some (.varr _) => true
    | _ => false
  | _ => false

/-- Sequential model of the per-URL fetches of a remote index through the
limiter, collected positionally by Promise.all; any failure fails the
batch. -/
def fetchIndexSeq (indexUrl : String) (w : World)
    (opts : ResolvedSafeJsonLoaderOptions) :
    List String → List IoEvent × Except LoadFailure (List LoadedJsonFile)
  | [] => ([], .ok [])
  | fileUrl :: rest =>
    if !(isHttpUrl fileUrl) then
      ([], .error (.loader ⟨"Invalid remote file URL in index at " ++ indexUrl
          ++ ": " ++ fileUrl, "REMOTE_INDEX_URL_ERROR"⟩))
    else
      match loadRemoteJson fileUrl w opts with
      | (evs, .error e) => (evs, .error e)
      | (evs, .ok data) =>
        let name := basename (urlPathname fileUrl)
        match fetchIndexSeq indexUrl w opts rest with
        | (evs2, .error e) => (evs ++ [.hookLoaded name fileUrl] ++ evs2, .error e)
        | (evs2, .ok fs) =>
          (evs ++ [.hookLoaded name fileUrl] ++ evs2,
           .ok (⟨name, data, fileUrl⟩ :: fs))

/-- Embedding of loadRemoteIndex: extract the file list, keep string
entries, return an empty result for an empty list, enforce maxFiles, then
fetch every URL. -/
def loadRemoteIndex (indexUrl : String) (indexJson : JsValue) (w : World)
    (opts : ResolvedSafeJsonLoaderOptions) :
    List IoEvent × Except LoadFailure (List LoadedJsonFile) :=
  match indexFileList indexJson with
  | none =>
    ([], .error (.loader ⟨"Remote directory index " ++ indexUrl
        ++ " must return an array or \x7b files: [] \x7d.",
        "REMOTE_INDEX_FORMAT_ERROR"⟩))
  | some items =>
    let urls := items.filterMap asStringItem
    if urls.length = 0 then ([], .ok [])
    else if urls.length > opts.maxFiles then
      ([], .error (.loader ⟨"Remote directory index at " ++ indexUrl ++ " lists "
          ++ toString urls.length ++ " files, exceeding maxFiles="
          ++ toString opts.maxFiles ++ ".", "REMOTE_INDEX_LIMIT_ERROR"⟩))
    else fetchIndexSeq indexUrl w opts urls

/- ------------------------------------------------------------------ -/
/- Local loading                                                       -/
/- ------------------------------------------------------------------ -/

/-- Embedding of loadLocalJsonFile: stat, size gate with the skip hook,
read, parse, sanitize, post-hoc depth check, then build the record and
invoke the loaded hook. A path that fails to stat as a regular file
surfaces as an uncaught exception, as in the code. -/
def loadLocalJsonFile (filePath : String) (w : World)
    (opts : ResolvedSafeJsonLoaderOptions) :
    List IoEvent × Except LoadFailure LoadedJsonFile :=
  match w.stat filePath with
  | .fileEntry size parseRes =>
    if size > opts.maxFileBytes then
      ([.fsStat filePath,
        .hookSkipped filePath
          ("File exceeds maxFileBytes=" ++ toString opts.maxFileBytes)],
       .error (.loader ⟨"Local file too large: " ++ filePath ++ " ("
          ++ toString size ++ " bytes > " ++ toString opts.maxFileBytes ++ ").",
          "LOCAL_FILE_SIZE_ERROR"⟩))
    else
      match parseRes with
      | .error msg =>
        ([.fsStat filePath, .fsRead filePath, .parseAttempt filePath],
         .error (.loader ⟨"Invalid JSON in file " ++ filePath ++ ": " ++ msg,
            "LOCAL_JSON_PARSE_ERROR"⟩))
      | .ok raw =>
        match sanitizePrototypePollution raw (some opts.maxJsonDepth) with
        | .error e =>
          ([.fsStat filePath, .fsRead filePath, .parseAttempt filePath],
           .error (.loader e))
        | .ok sanitized =>
          if calculateDepth sanitized 0 > opts.maxJsonDepth then
            ([.fsStat filePath, .fsRead filePath, .parseAttempt filePath],
             .error (.loader ⟨"Local JSON in " ++ filePath
                ++ " exceeds maxJsonDepth=" ++ toString opts.maxJsonDepth
                ++ " (depth=" ++ toString (calculateDepth sanitized 0) ++ ").",
                "LOCAL_JSON_DEPTH_ERROR"⟩))
          else
            ([.fsStat filePath, .fsRead filePath, .parseAttempt filePath,
              .hookLoaded (basename filePath) filePath],
             .ok ⟨basename filePath, sanitized, filePath⟩)
  | _ =>
    ([.fsStat filePath],
     .error (.uncaught ("stat or read failed for " ++ filePath)))

/-- The size of a statted entry as used by the directory size accumulator. -/
def statSize : StatResult → Nat
  | .fileEntry size _ => size
  | _ => 0

/-- Embedding of the directory total-size loop: stat each candidate in
listing order, accumulate, and fail the moment the running total exceeds
maxTotalBytes. -/
def sizeScan (dirPath : String) (w : World) (maxTotal : Nat) :
    List String → Nat → List IoEvent × Except JsonLoaderError (List String)
  | [], _ => ([], .ok [])
  | name :: rest, total =>
    let full := pathJoin dirPath name
    let size := statSize (w.stat full)
    if total + size > maxTotal then
      ([.fsStat full],
       .error ⟨"Total size of JSON files in " ++ dirPath
          ++ " exceeds maxTotalBytes=" ++ toString maxTotal ++ ".",
          "LOCAL_DIR_TOTAL_SIZE_ERROR"⟩)
    else
      match sizeScan dirPath w maxTotal rest (total + size) with
      | (evs, .error e) => (.fsStat full :: evs, .error e)
      | (evs, .ok paths) => (.fsStat full :: evs, .ok (full :: paths))

/-- Sequential model of running the per-file loads through the limiter and
collecting them with Promise.all: results are positional and any failure
fails the batch. -/
def loadFilesSeq (w : World) (opts : ResolvedSafeJsonLoaderOptions) :
    List String → List IoEvent × Except LoadFailure (List LoadedJsonFile)
  | [] => ([], .ok [])
  | p :: rest =>
    match loadLocalJsonFile p w opts with
    | (evs, .error e) => (evs, .error e)
    | (evs, .ok f) =>
      match loadFilesSeq w opts rest with
      | (evs2, .error e) => (evs ++ evs2, .error e)
      | (evs2, .ok fs) => (evs ++ evs2, .ok (f :: fs))

/-- Embedding of loadLocalDirectory: list, filter to .json entries, return
an empty result for an empty filter, enforce maxFiles, scan sizes, then
load all surviving files. -/
def loadLocalDirectory (dirPath : String) (entries : List String) (w : World)
    (opts : ResolvedSafeJsonLoaderOptions) :
    List IoEvent × Except LoadFailure (List LoadedJsonFile) :=
  let jsonFiles := entries.filter isJsonFile
  if jsonFiles.length = 0 then
    ([.fsReadDir dirPath], .ok [])
  else if jsonFiles.length > opts.maxFiles then
    ([.fsReadDir dirPath],
     .error (.loader ⟨"Directory " ++ dirPath ++ " contains "
        ++ toString jsonFiles.length ++ " JSON files, exceeding maxFiles="
        ++ toString opts.maxFiles ++ ".", "LOCAL_DIR_LIMIT_ERROR"⟩))
  else
    match sizeScan dirPath w opts.maxTotalBytes jsonFiles 0 with
    | (evs, .error e) => (.fsReadDir dirPath :: evs, .error (.loader e))
    | (evs, .ok filePaths) =>
      match loadFilesSeq w opts filePaths with
      | (evs2, r) => (.fsReadDir dirPath :: (evs ++ evs2), r)

/- ------------------------------------------------------------------ -/
/- Orchestrator                                                        -/
/- ------------------------------------------------------------------ -/

/-- Embedding of loadSafeJsonResources: coerce and validate the input,
merge options, then dispatch to the remote or local path. -/
def loadSafeJsonResources (input : JsonLoadInput) (w : World)
    (options : SafeJsonLoaderOptions) :
    List IoEvent × Except LoadFailure (List LoadedJsonFile) :=
  let inputStr := ensureStringInput input
  if inputStr = "" then
    ([], .error (.loader ⟨"Input path/URL must be a non-empty string.",
        "INPUT_VALIDATION_ERROR"⟩))
  else
    let opts := mergeOptions options
    if isHttpUrl inputStr then
      match loadRemoteJson inputStr w opts with
      | (evs, .error e) => (evs, .error e)
      | (evs, .ok json) =>
        if isIndexShape json then
          match loadRemoteIndex inputStr json w opts with
          | (evs2, r) => (evs ++ evs2, r)
        else
          (evs ++ [.hookLoaded (urlPathname inputStr) inputStr],
           .ok [⟨urlPathname inputStr, json, inputStr⟩])
    else
      let resolved := w.resolve inputStr
      match w.stat resolved with
      | .missing =>
        ([.fsStat resolved],
         .error (.loader ⟨"Local path does not exist: " ++ resolved,
            "LOCAL_PATH_NOT_FOUND"⟩))
      | .fileEntry _ _ =>
        if !(isJsonFile resolved) then
          ([.fsStat resolved],
           .error (.loader ⟨"File is not a .json file: " ++ resolved,
              "LOCAL_FILE_EXTENSION_ERROR"⟩))
        else
          match loadLocalJsonFile resolved w opts with
          | (evs, .error e) => (.fsStat resolved :: evs, .error e)
          | (evs, .ok f) => (.fsStat resolved :: evs, .ok [f])
      | .dirEntry entries =>
        match loadLocalDirectory resolved entries w opts with
        | (evs, r) => (.fsStat resolved :: evs, r)
      | .otherEntry =>
        ([.fsStat resolved],
         .error (.loader ⟨"Unsupported path type: " ++ resolved,
            "LOCAL_PATH_TYPE_ERROR"⟩))

/- ------------------------------------------------------------------ -/
/- Concurrency limiter model                                           -/
/- ------------------------------------------------------------------ -/

/-- State of the createLimiter closure: the active counter and the FIFO
queue of deferred task starts, plus ghost logs of submissions, starts and
currently running task identifiers used to state the invariants. -/
structure LimiterState where
  active : Nat
  queue : List Nat
  startedLog : List Nat
  submittedLog : List Nat
  running : List Nat
  deriving DecidableEq, Repr

/-- Events driving the limiter on the single-threaded event loop: a task
submission through run, or a settlement (resolution or rejection) of a
running task. -/
inductive LimiterEvent where
  | submit (id : Nat)
  | settle (id : Nat) (success : Bool)
  deriving DecidableEq, Repr

/-- Fresh limiter: no active tasks, empty queue. -/
def limiterInit : LimiterState := ⟨0, [], [], [], []⟩

/-- Embedding of the createLimiter transitions: run executes the task at
once when active is below the bound and queues it otherwise; a settlement
(through then or catch alike) decrements active and immediately starts the
queue head when one is waiting. -/
def limiterStep (maxConcurrency : Nat) (s : LimiterState) :
    LimiterEvent → LimiterState
  | .submit id =>
    if s.active < maxConcurrency then
      ⟨s.active + 1, s.queue, s.startedLog ++ [id], s.submittedLog ++ [id],
       s.running ++ [id]⟩
    else
      ⟨s.active, s.queue ++ [id], s.startedLog, s.submittedLog ++ [id], s.running⟩
  | .settle id _ =>
    let a := s.active - 1
    let r := s.running.erase id
    match s.queue with
    | [] => ⟨a, [], s.startedLog, s.submittedLog, r⟩
    | q :: rest => ⟨a + 1, rest, s.startedLog ++ [q], s.submittedLog, r ++ [q]⟩

/-- Run the limiter over an event sequence from the fresh state. -/
def limiterRun (maxConcurrency : Nat) (events : List LimiterEvent) : LimiterState :=
  events.foldl (limiterStep maxConcurrency) limiterInit

/-- Well-formedness of one event against a state: a submission uses a fresh
task identifier and a settlement concerns a running task. -/
def wfEvent (s : LimiterState) : LimiterEvent → Bool
  | .submit id => !(s.submittedLog.contains id)
  | .settle id _ => s.running.contains id

/-- Well-formed event sequences from a given state. -/
def wfEventsFrom (maxConcurrency : Nat) (s : LimiterState) :
    List LimiterEvent → Bool
  | [] => true
  | e :: rest =>
    wfEvent s e &&
    wfEventsFrom maxConcurrency (limiterStep maxConcurrency s e) rest

/- ------------------------------------------------------------------ -/
/- Structural lemmas for the sanitizer                                 -/
/- ------------------------------------------------------------------ -/

theorem sanitizeItems_forall₂ {items out : List JsValue} {d m : Nat}
    (h : sanitizeItems items d m = .ok out) :
    List.Forall₂ (fun a b => deepSanitize a d m = .ok b) items out := by
  induction items generalizing out with
  | nil =>
    simp only [sanitizeItems] at h
    cases h
    exact List.Forall₂.nil
  | cons v rest ih =>
    cases hsv : deepSanitize v d m with
    | error e => simp [sanitizeItems, hsv] at h
    | ok w =>
      cases hsr : sanitizeItems rest d m with
      | error e => simp [sanitizeItems, hsv, hsr] at h
      | ok ws =>
        simp only [sanitizeItems, hsv, hsr] at h
        cases h
        exact List.Forall₂.cons hsv (ih hsr)

theorem sanitizeFields_forall₂ {fields out : List (String × JsValue)} {d m : Nat}
    (h : sanitizeFields fields d m = .ok out) :
    List.Forall₂
      (fun kv kw => kw.1 = kv.1 ∧ deepSanitize kv.2 d m = .ok kw.2)
      (fields.filter (fun kv => !(POLLUTION_KEYS.contains kv.1))) out := by
  induction fields generalizing out with
  | nil =>
    simp only [sanitizeFields] at h
    cases h
    simp
  | cons kv rest ih =>
    obtain ⟨k, v⟩ := kv
    by_cases hk : POLLUTION_KEYS.contains k = true
    · simp only [sanitizeFields] at h
      rw [if_pos hk] at h
      rw [List.filter_cons_of_neg (by simpa using hk)]
      exact ih h
    · cases hsv : deepSanitize v d m with
      | error e =>
        simp only [sanitizeFields, hsv] at h
        rw [if_neg hk] at h
        exact Except.noConfusion h
      | ok w =>
        cases hsr : sanitizeFields rest d m with
        | error e =>
          simp only [sanitizeFields, hsv, hsr] at h
          rw [if_neg hk] at h
          exact Except.noConfusion h
        | ok ws =>
          simp only [sanitizeFields, hsv, hsr] at h
          rw [if_neg hk] at h
          cases h
          rw [List.filter_cons_of_pos (by simpa using hk)]
          exact List.Forall₂.cons ⟨rfl, hsv⟩ (ih hsr)

/- ------------------------------------------------------------------ -/
/- Claim C1                                                            -/
/- ------------------------------------------------------------------ -/

/-- C1: for every input on which the sanitizer succeeds, every object node
reachable in the result was rebuilt without the shared template, carries no
pollution-set key, and resolves no key beyond its explicitly copied own
keys — including names colliding with reserved identifiers, which would be
inherited on a non-rebuilt object. -/
theorem c1_sanitize_no_pollution_no_inherited
    (v : JsValue) (d m : Nat) (v' : JsValue)
    (h : deepSanitize v d m = .ok v')
    (p : Bool) (fields : List (String × JsValue))
    (hsub : Subvalue (.vobj p fields) v') :
    p = false ∧
    (∀ k, k ∈ POLLUTION_KEYS → lookupField fields k = none) ∧
    (∀ k, lookupField fields k = none → objLookup p fields k = none) := by
  have hsan := ((sanitize_props v).1 d m v' h).1
  have hobj := isFullySanitized_subvalue hsub hsan
  simp only [isFullySanitized, Bool.and_eq_true, Bool.not_eq_true'] at hobj
  obtain ⟨hp, hf⟩ := hobj
  subst hp
  refine ⟨rfl, ?_, ?_⟩
  · intro k hk
    exact lookupField_pollution_none hf hk
  · intro k hk
    exact objLookup_none_of_no_proto hk

/-- Witness for C1 at the parsed form of a concrete polluted document. -/
theorem c1_witness :
    lookupField [] "__proto__" = none ∧
    objLookup false [] "toString" = none ∧
    objLookup false [] "constructor" = none := by
  have h := c1_sanitize_no_pollution_no_inherited
    (.vobj true [("user",
        .vobj true [("__proto__", .vobj true [("isAdmin", .vbool true)])])])
    0 50
    (.vobj false [("user", .vobj false [])])
    (by rfl)
    false []
    (Subvalue.inObj (List.mem_cons_self _ _) (Subvalue.refl _))
  exact ⟨h.2.1 "__proto__" (by decide), h.2.2 "toString" (by rfl),
    h.2.2 "constructor" (by rfl)⟩

/- ------------------------------------------------------------------ -/
/- Claim C2                                                            -/
/- ------------------------------------------------------------------ -/

/-- C2: sanitization is a structural round trip modulo the stripped keys:
scalars and null pass through unchanged, arrays keep their length and order
with elementwise sanitized values, and objects keep exactly their
non-pollution keys in order, each bound to its recursively sanitized
sub-value. -/
theorem c2_sanitize_structural (d m : Nat) :
    (∀ s v', deepSanitize (.vstr s) d m = .ok v' → v' = .vstr s) ∧
    (∀ x v', deepSanitize (.vnum x) d m = .ok v' → v' = .vnum x) ∧
    (∀ b v', deepSanitize (.vbool b) d m = .ok v' → v' = .vbool b) ∧
    (∀ v', deepSanitize .vnull d m = .ok v' → v' = .vnull) ∧
    (∀ items v', deepSanitize (.varr items) d m = .ok v' →
      ∃ out, v' = .varr out ∧ out.length = items.length ∧
        List.Forall₂ (fun a b => deepSanitize a (d + 1) m = .ok b) items out) ∧
    (∀ p fields v', deepSanitize (.vobj p fields) d m = .ok v' →
      ∃ out, v' = .vobj false out ∧
        List.Forall₂
          (fun kv kw => kw.1 = kv.1 ∧ deepSanitize kv.2 (d + 1) m = .ok kw.2)
          (fields.filter (fun kv => !(POLLUTION_KEYS.contains kv.1))) out) := by
  by_cases hd : d > m
  · refine ⟨?_, ?_, ?_, ?_, ?_, ?_⟩
    · intro s v' h; simp [deepSanitize, hd] at h
    · intro x v' h; simp [deepSanitize, hd] at h
    · intro b v' h; simp [deepSanitize, hd] at h
    · intro v' h; simp [deepSanitize, hd] at h
    · intro items v' h; simp [deepSanitize, hd] at h
    · intro p fields v' h; simp [deepSanitize, hd] at h
  · refine ⟨?_, ?_, ?_, ?_, ?_, ?_⟩
    · intro s v' h
      simp only [deepSanitize, hd, if_false] at h
      cases h
      rfl
    · intro x v' h
      simp only [deepSanitize, hd, if_false] at h
      cases h
      rfl
    · intro b v' h
      simp only [deepSanitize, hd, if_false] at h
      cases h
      rfl
    · intro v' h
      simp only [deepSanitize, hd, if_false] at h
      cases h
      rfl
    · intro items v' h
      cases hsi : sanitizeItems items (d + 1) m with
      | error e => simp [deepSanitize, hd, hsi] at h
      | ok out =>
        simp only [deepSanitize, hd, if_false, hsi] at h
        cases h
        exact ⟨out, rfl, (sanitizeItems_forall₂ hsi).length_eq.symm,
          sanitizeItems_forall₂ hsi⟩
    · intro p fields v' h
      cases hsf : sanitizeFields fields (d + 1) m with
      | error e => simp [deepSanitize, hd, hsf] at h
      | ok out =>
        simp only [deepSanitize, hd, if_false, hsf] at h
        cases h
        exact ⟨out, rfl, sanitizeFields_forall₂ hsf⟩

/-- Witness for C2 on a concrete object carrying a pollution key next to an
ordinary key. -/
theorem c2_witness :
    ∃ out, (JsValue.vobj false [("a", JsValue.vnum 1)]) = .vobj false out ∧
      List.Forall₂
        (fun kv kw => kw.1 = kv.1 ∧ deepSanitize kv.2 1 50 = .ok kw.2)
        ([("a", JsValue.vnum 1), ("__proto__", JsValue.vbool true)].filter
          (fun kv => !(POLLUTION_KEYS.contains kv.1))) out :=
  (c2_sanitize_structural 0 50).2.2.2.2.2 true
    [("a", JsValue.vnum 1), ("__proto__", JsValue.vbool true)]
    (.vobj false [("a", JsValue.vnum 1)]) (by rfl)

/- ------------------------------------------------------------------ -/
/- Claim C8                                                            -/
/- ------------------------------------------------------------------ -/

/-- C8: sanitization is idempotent: applying the sanitizer to an
already-sanitized value returns that value unchanged. -/
theorem c8_sanitize_idempotent (v : JsValue) (d m : Nat) (v' : JsValue)
    (h : deepSanitize v d m = .ok v') : deepSanitize v' d m = .ok v' :=
  ((sanitize_props v).1 d m v' h).2.1

/-- Witness for C8: re-sanitizing the sanitized form of a concrete polluted
document returns it unchanged. -/
theorem c8_witness :
    deepSanitize (.vobj false [("cfg", .varr [.vobj false [("x", .vnum 2)]])]) 0 50
      = .ok (.vobj false [("cfg", .varr [.vobj false [("x", .vnum 2)]])]) :=
  c8_sanitize_idempotent
    (.vobj true [("cfg", .varr [.vobj true [("x", .vnum 2), ("prototype", .vnull)]])])
    0 50
    (.vobj false [("cfg", .varr [.vobj false [("x", .vnum 2)]])]) (by rfl)

/- ------------------------------------------------------------------ -/
/- Claim C3                                                            -/
/- ------------------------------------------------------------------ -/

/-- The post-hoc depth check in loadLocalJsonFile can never fire: the
sanitizer is invoked with maxJsonDepth itself as its circuit-breaker bound,
so a sanitized result always has depth within maxJsonDepth, and any
too-deep input already failed inside the sanitizer. -/
theorem local_depth_check_unreachable (filePath : String) (w : World)
    (opts : ResolvedSafeJsonLoaderOptions) (e : JsonLoaderError)
    (h : (loadLocalJsonFile filePath w opts).2 = .error (.loader e)) :
    e.code ≠ "LOCAL_JSON_DEPTH_ERROR" := by
  cases hst : w.stat filePath with
  | fileEntry size parseRes =>
    by_cases hsz : size > opts.maxFileBytes
    · simp only [loadLocalJsonFile, hst] at h
      rw [if_pos hsz] at h
      cases h
      simp
    · cases parseRes with
      | error msg =>
        simp only [loadLocalJsonFile, hst] at h
        rw [if_neg hsz] at h
        cases h
        simp
      | ok raw =>
        cases hsan : sanitizePrototypePollution raw (some opts.maxJsonDepth) with
        | error e2 =>
          simp only [loadLocalJsonFile, hst, hsan] at h
          rw [if_neg hsz] at h
          cases h
          have he : e = depthSanitationError opts.maxJsonDepth :=
            (sanitize_props raw).2 0 opts.maxJsonDepth e
              (by simpa [sanitizePrototypePollution] using hsan)
          subst he
          simp [depthSanitationError]
        | ok sanitized =>
          have hdep : calculateDepth sanitized 0 ≤ opts.maxJsonDepth :=
            ((sanitize_props raw).1 0 opts.maxJsonDepth sanitized
              (by simpa [sanitizePrototypePollution] using hsan)).2.2
          simp only [loadLocalJsonFile, hst, hsan] at h
          rw [if_neg hsz, if_neg (by omega)] at h
          exact Except.noConfusion h
  | missing =>
    simp only [loadLocalJsonFile, hst] at h
    exact absurd h (by simp)
  | dirEntry entries =>
    simp only [loadLocalJsonFile, hst] at h
    exact absurd h (by simp)
  | otherEntry =>
    simp only [loadLocalJsonFile, hst] at h
    exact absurd h (by simp)

/-- The world of the C3 failing input: a small local file whose JSON parses
to a depth-2 array. -/
def c3World : World :=
  ⟨fun _ => .fileEntry 10 (.ok (.varr [.varr [.vnull]])),
   fun _ => .error "offline",
   fun s => s⟩

/-- Options with maxJsonDepth 1 and the remaining knobs at their defaults. -/
def c3Opts : ResolvedSafeJsonLoaderOptions :=
  ⟨100, 10485760, 2097152, 8000, 5, true, 1⟩

/-- C3: at a concrete in-limit file whose parsed depth exceeds maxJsonDepth,
the load fails with the sanitizer circuit-breaker code
JSON_DEPTH_SANITATION_LIMIT rather than LOCAL_JSON_DEPTH_ERROR: the
circuit-breaker runs at maxJsonDepth itself, not at a much larger bound, so
the post-hoc policy check never fires. -/
theorem c3_depth_failure_uses_sanitation_code :
    (loadLocalJsonFile "/data/a.json" c3World c3Opts).2
      = .error (.loader (depthSanitationError 1)) ∧
    (depthSanitationError 1).code = "JSON_DEPTH_SANITATION_LIMIT" ∧
    "JSON_DEPTH_SANITATION_LIMIT" ≠ "LOCAL_JSON_DEPTH_ERROR" ∧
    calculateDepth (.varr [.varr [.vnull]]) 0 > c3Opts.maxJsonDepth := by
  refine ⟨by rfl, by rfl, by decide, by decide⟩

/- ------------------------------------------------------------------ -/
/- Claim C4                                                            -/
/- ------------------------------------------------------------------ -/

/-- C4: the size gate: a file whose size is within (in particular exactly
at) maxFileBytes proceeds to the read, while a strictly larger file fires
the skip hook with the source and a reason and fails with
LOCAL_FILE_SIZE_ERROR, without the content ever being read or parsed. -/
theorem c4_size_gate (filePath : String) (w : World)
    (opts : ResolvedSafeJsonLoaderOptions) (size : Nat)
    (parseRes : Except String JsValue)
    (hst : w.stat filePath = .fileEntry size parseRes) :
    (size ≤ opts.maxFileBytes →
      IoEvent.fsRead filePath ∈ (loadLocalJsonFile filePath w opts).1) ∧
    (size > opts.maxFileBytes →
      loadLocalJsonFile filePath w opts =
        ([IoEvent.fsStat filePath,
          IoEvent.hookSkipped filePath
            ("File exceeds maxFileBytes=" ++ toString opts.maxFileBytes)],
         .error (.loader ⟨"Local file too large: " ++ filePath ++ " ("
            ++ toString size ++ " bytes > " ++ toString opts.maxFileBytes
            ++ ").", "LOCAL_FILE_SIZE_ERROR"⟩)) ∧
      IoEvent.fsRead filePath ∉ (loadLocalJsonFile filePath w opts).1 ∧
      IoEvent.parseAttempt filePath ∉ (loadLocalJsonFile filePath w opts).1) := by
  constructor
  · intro hle
    have hsz : ¬ size > opts.maxFileBytes := by omega
    cases parseRes with
    | error msg =>
      simp only [loadLocalJsonFile, hst]
      rw [if_neg hsz]
      simp
    | ok raw =>
      cases hsan : sanitizePrototypePollution raw (some opts.maxJsonDepth) with
      | error e2 =>
        simp only [loadLocalJsonFile, hst, hsan]
        rw [if_neg hsz]
        simp
      | ok sanitized =>
        by_cases hdep : calculateDepth sanitized 0 > opts.maxJsonDepth
        · simp only [loadLocalJsonFile, hst, hsan]
          rw [if_neg hsz, if_pos hdep]
          simp
        · simp only [loadLocalJsonFile, hst, hsan]
          rw [if_neg hsz, if_neg hdep]
          simp
  · intro hgt
    have heq : loadLocalJsonFile filePath w opts =
        ([IoEvent.fsStat filePath,
          IoEvent.hookSkipped filePath
            ("File exceeds maxFileBytes=" ++ toString opts.maxFileBytes)],
         .error (.loader ⟨"Local file too large: " ++ filePath ++ " ("
            ++ toString size ++ " bytes > " ++ toString opts.maxFileBytes
            ++ ").", "LOCAL_FILE_SIZE_ERROR"⟩)) := by
      simp only [loadLocalJsonFile, hst]
      rw [if_pos hgt]
    refine ⟨heq, ?_, ?_⟩
    · rw [heq]; simp
    · rw [heq]; simp

/-- World with a file of exactly the default per-file byte limit. -/
def c4WorldExact : World :=
  ⟨fun _ => .fileEntry 2097152 (.ok .vnull), fun _ => .error "offline",
   fun s => s⟩

/-- World with a file one byte over the default per-file byte limit. -/
def c4WorldOver : World :=
  ⟨fun _ => .fileEntry 2097153 (.ok .vnull), fun _ => .error "offline",
   fun s => s⟩

/-- Witness for C4: a file of exactly the default maxFileBytes is read; one
byte more is never read or parsed. -/
theorem c4_witness :
    IoEvent.fsRead "/d.json"
      ∈ (loadLocalJsonFile "/d.json" c4WorldExact DEFAULT_OPTIONS).1 ∧
    IoEvent.fsRead "/d.json"
      ∉ (loadLocalJsonFile "/d.json" c4WorldOver DEFAULT_OPTIONS).1 ∧
    IoEvent.parseAttempt "/d.json"
      ∉ (loadLocalJsonFile "/d.json" c4WorldOver DEFAULT_OPTIONS).1 := by
  have h1 := c4_size_gate "/d.json" c4WorldExact DEFAULT_OPTIONS 2097152
    (.ok .vnull) (by rfl)
  have h2 := c4_size_gate "/d.json" c4WorldOver DEFAULT_OPTIONS 2097153
    (.ok .vnull) (by rfl)
  exact ⟨h1.1 (by decide), (h2.2 (by decide)).2.1, (h2.2 (by decide)).2.2⟩

/- ------------------------------------------------------------------ -/
/- Claim C5                                                            -/
/- ------------------------------------------------------------------ -/

/-- Spec-side predicate: the content type contains the substring json,
case-insensitively. -/
def ctContainsJsonCI (ct : String) : Bool := strIncludes (lowerStr ct) "json"

/-- Spec-side predicate: the lowercased content type starts with the
canonical JSON media type. -/
def ctLeadsWithAppJson (ct : String) : Bool :=
  strLeadsWith (lowerStr ct) "application/json"

/-- A strict-mode configuration, all other knobs at their defaults. -/
def c5StrictOpts : ResolvedSafeJsonLoaderOptions :=
  ⟨100, 10485760, 2097152, 8000, 5, false, 50⟩

/-- A successful response whose content type carries a charset parameter. -/
def c5Res : HttpResponse :=
  ⟨true, 200, "OK", some "application/json; charset=utf-8", .ok .vnull⟩

/-- C5 counterexample: in strict mode the code accepts a content type that
does not exactly match application/json, because it tests a prefix, not
equality. -/
theorem c5_counterexample :
    assertJsonContentType "https://example.com/a.json" c5Res c5StrictOpts
      = .ok () ∧
    c5Res.contentType.getD "" ≠ "application/json" ∧
    c5StrictOpts.looseJsonContentType = false := by
  refine ⟨by rfl, by decide, rfl⟩

/-- C5 amended: the content type is accepted exactly when it contains json
case-insensitively (loose mode) or its lowercase starts with
application/json (strict mode); otherwise the fetch fails with
REMOTE_CONTENT_TYPE_ERROR before the body is parsed. -/
theorem c5_content_type_gate (url : String) (res : HttpResponse)
    (opts : ResolvedSafeJsonLoaderOptions) :
    (assertJsonContentType url res opts = .ok () ↔
      (if opts.looseJsonContentType then ctContainsJsonCI (res.contentType.getD "")
       else ctLeadsWithAppJson (res.contentType.getD "")) = true) ∧
    (∀ e, assertJsonContentType url res opts = .error e →
      e.code = "REMOTE_CONTENT_TYPE_ERROR") ∧
    (∀ w e, w.fetch url = .ok res → res.ok = true →
      assertJsonContentType url res opts = .error e →
      loadRemoteJson url w opts = ([IoEvent.httpFetch url], .error (.loader e))) := by
  have hunf : assertJsonContentType url res opts =
      (if !(if opts.looseJsonContentType then
              ctContainsJsonCI (res.contentType.getD "")
            else ctLeadsWithAppJson (res.contentType.getD "")) then
        .error ⟨"Remote URL does not advertise JSON content-type at " ++ url
            ++ ": " ++ res.contentType.getD "", "REMOTE_CONTENT_TYPE_ERROR"⟩
       else .ok ()) := rfl
  refine ⟨?_, ?_, ?_⟩
  · rw [hunf]
    cases hb : (if opts.looseJsonContentType then
        ctContainsJsonCI (res.contentType.getD "")
      else ctLeadsWithAppJson (res.contentType.getD "")) with
    | false => simp
    | true => simp
  · intro e he
    rw [hunf] at he
    cases hb : (if opts.looseJsonContentType then
        ctContainsJsonCI (res.contentType.getD "")
      else ctLeadsWithAppJson (res.contentType.getD "")) with
    | false =>
      rw [hb] at he
      simp only [Bool.not_false, if_true] at he
      cases he
      rfl
    | true =>
      rw [hb] at he
      simp at he
  · intro w e hw hok he
    have hftw : fetchWithTimeout url w = .ok res := by
      unfold fetchWithTimeout
      rw [hw]
    simp only [loadRemoteJson, hftw, hok, he]
    simp

/-- A non-JSON response used in the C5 witness. -/
def c5WitnessRes : HttpResponse :=
  ⟨true, 200, "OK", some "text/html", .ok .vnull⟩

/-- A world serving the non-JSON response of the C5 witness. -/
def c5WitnessWorld : World :=
  ⟨fun _ => .missing, fun _ => .ok c5WitnessRes, fun s => s⟩

/-- Witness for C5 on a concrete loose-mode acceptance and a concrete
loose-mode rejection that stops before any body parse. -/
theorem c5_witness :
    (assertJsonContentType "https://x/a.json"
        ⟨true, 200, "OK", some "Text/JSON", .ok .vnull⟩ DEFAULT_OPTIONS
      = .ok () ↔ ctContainsJsonCI "Text/JSON" = true) ∧
    loadRemoteJson "https://x/a.json" c5WitnessWorld DEFAULT_OPTIONS
      = ([IoEvent.httpFetch "https://x/a.json"],
         .error (.loader ⟨"Remote URL does not advertise JSON content-type at "
            ++ "https://x/a.json" ++ ": " ++ "text/html",
            "REMOTE_CONTENT_TYPE_ERROR"⟩)) := by
  have h1 := c5_content_type_gate "https://x/a.json"
    ⟨true, 200, "OK", some "Text/JSON", .ok .vnull⟩ DEFAULT_OPTIONS
  have h2 := c5_content_type_gate "https://x/a.json" c5WitnessRes DEFAULT_OPTIONS
  refine ⟨h1.1, ?_⟩
  exact h2.2.2 c5WitnessWorld
    ⟨"Remote URL does not advertise JSON content-type at "
        ++ "https://x/a.json" ++ ": " ++ "text/html", "REMOTE_CONTENT_TYPE_ERROR"⟩
    (by rfl) (by rfl) (by rfl)

/- ------------------------------------------------------------------ -/
/- Error code accounting for the pipeline                              -/
/- ------------------------------------------------------------------ -/

/-- Every stable error code the pipeline can produce after input validation
has passed. -/
def postValidationCodes : List String :=
  ["REMOTE_FETCH_ERROR", "REMOTE_FETCH_STATUS_ERROR", "REMOTE_CONTENT_TYPE_ERROR",
   "JSON_DEPTH_SANITATION_LIMIT", "REMOTE_INDEX_FORMAT_ERROR",
   "REMOTE_INDEX_LIMIT_ERROR", "REMOTE_INDEX_URL_ERROR",
   "LOCAL_PATH_NOT_FOUND", "LOCAL_FILE_EXTENSION_ERROR", "LOCAL_FILE_SIZE_ERROR",
   "LOCAL_JSON_PARSE_ERROR", "LOCAL_JSON_DEPTH_ERROR",
   "LOCAL_DIR_LIMIT_ERROR", "LOCAL_DIR_TOTAL_SIZE_ERROR", "LOCAL_PATH_TYPE_ERROR"]

theorem assertJsonContentType_code (url : String) (res : HttpResponse)
    (opts : ResolvedSafeJsonLoaderOptions) (e : JsonLoaderError)
    (h : assertJsonContentType url res opts = .error e) :
    e.code = "REMOTE_CONTENT_TYPE_ERROR" := by
  simp only [assertJsonContentType] at h
  cases hj : (if opts.looseJsonContentType = true then
      strIncludes (lowerStr (res.contentType.getD "")) "json"
    else strLeadsWith (lowerStr (res.contentType.getD "")) "application/json") with
  | true =>
    rw [hj] at h
    simp at h
  | false =>
    rw [hj] at h
    rw [if_pos (show (!false) = true by decide)] at h
    cases h
    rfl

theorem fetchWithTimeout_code (url : String) (w : World) (e : JsonLoaderError)
    (h : fetchWithTimeout url w = .error e) : e.code = "REMOTE_FETCH_ERROR" := by
  cases hw : w.fetch url with
  | ok res => simp [fetchWithTimeout, hw] at h
  | error msg =>
    simp only [fetchWithTimeout, hw] at h
    cases h
    rfl

theorem loadRemoteJson_code (url : String) (w : World)
    (opts : ResolvedSafeJsonLoaderOptions) (e : JsonLoaderError)
    (h : (loadRemoteJson url w opts).2 = .error (.loader e)) :
    e.code ∈ postValidationCodes := by
  cases hf : fetchWithTimeout url w with
  | error e2 =>
    have hcode := fetchWithTimeout_code url w e2 hf
    simp only [loadRemoteJson, hf] at h
    cases h
    rw [hcode]
    decide
  | ok res =>
    cases hok : res.ok with
    | false =>
      simp only [loadRemoteJson, hf, hok, Bool.not_false, if_true] at h
      cases h
      simp [postValidationCodes]
    | true =>
      cases hct : assertJsonContentType url res opts with
      | error e2 =>
        have hcode := assertJsonContentType_code url res opts e2 hct
        simp only [loadRemoteJson, hf, hok, Bool.not_true, Bool.false_eq_true,
          if_false, hct] at h
        cases h
        rw [hcode]
        decide
      | ok u =>
        cases hb : res.body with
        | error msg =>
          simp [loadRemoteJson, hf, hok, hct, hb] at h
        | ok raw =>
          cases hsan : sanitizePrototypePollution raw (some opts.maxJsonDepth) with
          | error e2 =>
            have hcode : e2 = depthSanitationError opts.maxJsonDepth :=
              (sanitize_props raw).2 0 opts.maxJsonDepth e2
                (by simpa [sanitizePrototypePollution] using hsan)
            simp only [loadRemoteJson, hf, hok, Bool.not_true, Bool.false_eq_true,
              if_false, hct, hb, hsan] at h
            cases h
            rw [hcode]
            simp [depthSanitationError, postValidationCodes]
          | ok sanitized =>
            simp [loadRemoteJson, hf, hok, hct, hb, hsan] at h

theorem fetchIndexSeq_code (indexUrl : String) (w : World)
    (opts : ResolvedSafeJsonLoaderOptions) :
    ∀ (urls : List String) (e : JsonLoaderError),
      (fetchIndexSeq indexUrl w opts urls).2 = .error (.loader e) →
      e.code ∈ postValidationCodes := by
  intro urls
  induction urls with
  | nil => intro e h; simp [fetchIndexSeq] at h
  | cons u rest ih =>
    intro e h
    cases hu : isHttpUrl u with
    | false =>
      simp only [fetchIndexSeq, hu, Bool.not_false, if_true] at h
      cases h
      simp [postValidationCodes]
    | true =>
      cases hrj : loadRemoteJson u w opts with
      | mk evs r =>
        cases r with
        | error f =>
          cases f with
          | loader e2 =>
            have hcode : e2.code ∈ postValidationCodes :=
              loadRemoteJson_code u w opts e2 (by rw [hrj])
            simp only [fetchIndexSeq, hu, Bool.not_true, Bool.false_eq_true,
              if_false, hrj] at h
            cases h
            exact hcode
          | uncaught msg =>
            simp [fetchIndexSeq, hu, hrj] at h
        | ok data =>
          cases hrec : fetchIndexSeq indexUrl w opts rest with
          | mk evs2 r2 =>
            cases r2 with
            | error f =>
              cases f with
              | loader e2 =>
                have hcode : e2.code ∈ postValidationCodes := ih e2 (by rw [hrec])
                simp only [fetchIndexSeq, hu, Bool.not_true, Bool.false_eq_true,
                  if_false, hrj, hrec] at h
                cases h
                exact hcode
              | uncaught msg =>
                simp [fetchIndexSeq, hu, hrj, hrec] at h
            | ok fs =>
              simp [fetchIndexSeq, hu, hrj, hrec] at h

theorem loadRemoteIndex_code (indexUrl : String) (indexJson : JsValue)
    (w : World) (opts : ResolvedSafeJsonLoaderOptions) (e : JsonLoaderError)
    (h : (loadRemoteIndex indexUrl indexJson w opts).2 = .error (.loader e)) :
    e.code ∈ postValidationCodes := by
  cases hfl : indexFileList indexJson with
  | none =>
    simp only [loadRemoteIndex, hfl] at h
    cases h
    simp [postValidationCodes]
  | some items =>
    by_cases hz : (items.filterMap asStringItem).length = 0
    · simp only [loadRemoteIndex, hfl] at h
      rw [if_pos hz] at h
      exact Except.noConfusion h
    · by_cases hl : (items.filterMap asStringItem).length > opts.maxFiles
      · simp only [loadRemoteIndex, hfl] at h
        rw [if_neg hz, if_pos hl] at h
        cases h
        simp [postValidationCodes]
      · simp only [loadRemoteIndex, hfl] at h
        rw [if_neg hz, if_neg hl] at h
        exact fetchIndexSeq_code indexUrl w opts _ e h

theorem loadLocalJsonFile_code (filePath : String) (w : World)
    (opts : ResolvedSafeJsonLoaderOptions) (e : JsonLoaderError)
    (h : (loadLocalJsonFile filePath w opts).2 = .error (.loader e)) :
    e.code ∈ postValidationCodes := by
  cases hst : w.stat filePath with
  | fileEntry size parseRes =>
    by_cases hsz : size > opts.maxFileBytes
    · simp only [loadLocalJsonFile, hst] at h
      rw [if_pos hsz] at h
      cases h
      simp [postValidationCodes]
    · cases parseRes with
      | error msg =>
        simp only [loadLocalJsonFile, hst] at h
        rw [if_neg hsz] at h
        cases h
        simp [postValidationCodes]
      | ok raw =>
        cases hsan : sanitizePrototypePollution raw (some opts.maxJsonDepth) with
        | error e2 =>
          have hcode : e2 = depthSanitationError opts.maxJsonDepth :=
            (sanitize_props raw).2 0 opts.maxJsonDepth e2
              (by simpa [sanitizePrototypePollution] using hsan)
          simp only [loadLocalJsonFile, hst, hsan] at h
          rw [if_neg hsz] at h
          cases h
          rw [hcode]
          simp [depthSanitationError, postValidationCodes]
        | ok sanitized =>
          by_cases hdep : calculateDepth sanitized 0 > opts.maxJsonDepth
          · simp only [loadLocalJsonFile, hst, hsan] at h
            rw [if_neg hsz, if_pos hdep] at h
            cases h
            simp [postValidationCodes]
          · simp only [loadLocalJsonFile, hst, hsan] at h
            rw [if_neg hsz, if_neg hdep] at h
            exact Except.noConfusion h
  | missing => simp [loadLocalJsonFile, hst] at h
  | dirEntry entries => simp [loadLocalJsonFile, hst] at h
  | otherEntry => simp [loadLocalJsonFile, hst] at h

theorem sizeScan_code (dirPath : String) (w : World) (maxTotal : Nat) :
    ∀ (names : List String) (total : Nat) (e : JsonLoaderError),
      (sizeScan dirPath w maxTotal names total).2 = .error e →
      e.code = "LOCAL_DIR_TOTAL_SIZE_ERROR" := by
  intro names
  induction names with
  | nil => intro total e h; simp [sizeScan] at h
  | cons name rest ih =>
    intro total e h
    by_cases hover : total + statSize (w.stat (pathJoin dirPath name)) > maxTotal
    · simp only [sizeScan] at h
      rw [if_pos hover] at h
      cases h
      rfl
    · cases hrec : sizeScan dirPath w maxTotal rest
        (total + statSize (w.stat (pathJoin dirPath name))) with
      | mk evs r =>
        cases r with
        | error e2 =>
          have hcode := ih _ e2 (by rw [hrec])
          simp only [sizeScan, hrec] at h
          rw [if_neg hover] at h
          cases h
          exact hcode
        | ok paths =>
          simp only [sizeScan, hrec] at h
          rw [if_neg hover] at h
          exact Except.noConfusion h

theorem loadFilesSeq_code (w : World) (opts : ResolvedSafeJsonLoaderOptions) :
    ∀ (paths : List String) (e : JsonLoaderError),
      (loadFilesSeq w opts paths).2 = .error (.loader e) →
      e.code ∈ postValidationCodes := by
  intro paths
  induction paths with
  | nil => intro e h; simp [loadFilesSeq] at h
  | cons p rest ih =>
    intro e h
    cases hlf : loadLocalJsonFile p w opts with
    | mk evs r =>
      cases r with
      | error f =>
        cases f with
        | loader e2 =>
          have hcode : e2.code ∈ postValidationCodes :=
            loadLocalJsonFile_code p w opts e2 (by rw [hlf])
          simp only [loadFilesSeq, hlf] at h
          cases h
          exact hcode
        | uncaught msg => simp [loadFilesSeq, hlf] at h
      | ok f =>
        cases hrec : loadFilesSeq w opts rest with
        | mk evs2 r2 =>
          cases r2 with
          | error f2 =>
            cases f2 with
            | loader e2 =>
              have hcode : e2.code ∈ postValidationCodes := ih e2 (by rw [hrec])
              simp only [loadFilesSeq, hlf, hrec] at h
              cases h
              exact hcode
            | uncaught msg => simp [loadFilesSeq, hlf, hrec] at h
          | ok fs => simp [loadFilesSeq, hlf, hrec] at h

theorem loadLocalDirectory_code (dirPath : String) (entries : List String)
    (w : World) (opts : ResolvedSafeJsonLoaderOptions) (e : JsonLoaderError)
    (h : (loadLocalDirectory dirPath entries w opts).2 = .error (.loader e)) :
    e.code ∈ postValidationCodes := by
  by_cases hz : (entries.filter isJsonFile).length = 0
  · simp only [loadLocalDirectory] at h
    rw [if_pos hz] at h
    exact Except.noConfusion h
  · by_cases hl : (entries.filter isJsonFile).length > opts.maxFiles
    · simp only [loadLocalDirectory] at h
      rw [if_neg hz, if_pos hl] at h
      cases h
      simp [postValidationCodes]
    · cases hscan : sizeScan dirPath w opts.maxTotalBytes
        (entries.filter isJsonFile) 0 with
      | mk evs r =>
        cases r with
        | error e2 =>
          have hcode := sizeScan_code dirPath w opts.maxTotalBytes _ 0 e2
            (by rw [hscan])
          simp only [loadLocalDirectory, hscan] at h
          rw [if_neg hz, if_neg hl] at h
          cases h
          rw [hcode]
          decide
        | ok paths =>
          cases hseq : loadFilesSeq w opts paths with
          | mk evs2 r2 =>
            simp only [loadLocalDirectory, hscan, hseq] at h
            rw [if_neg hz, if_neg hl] at h
            cases r2 with
            | error f =>
              cases f with
              | loader e2 =>
                have hcode : e2.code ∈ postValidationCodes :=
                  loadFilesSeq_code w opts paths e2 (by rw [hseq])
                simp only [] at h
                cases h
                exact hcode
              | uncaught msg => simp at h
            | ok fs => exact Except.noConfusion h

/- ------------------------------------------------------------------ -/
/- Claim C6                                                            -/
/- ------------------------------------------------------------------ -/

/-- Options with no knob supplied. -/
def noOptions : SafeJsonLoaderOptions := ⟨none, none, none, none, none, none, none⟩

/-- A world serving a simple JSON object document over HTTP. -/
def c6World : World :=
  ⟨fun _ => .missing,
   fun _ => .ok ⟨true, 200, "OK", some "application/json",
      .ok (.vobj true [("a", .vnum 1)])⟩,
   fun s => s⟩

/-- C6 counterexample: a URL object is a non-string input, yet the loader
coerces it with the String function and resolves successfully instead of
failing with INPUT_VALIDATION_ERROR. -/
theorem c6_counterexample :
    (loadSafeJsonResources (.urlInput "https://example.com/a.json") c6World
        noOptions).2
      = .ok [⟨"/a.json", .vobj false [("a", .vnum 1)],
          "https://example.com/a.json"⟩] := by
  rfl

/-- C6 amended: input validation rejects exactly the inputs whose String
coercion is empty, before any I/O; non-string inputs are coerced rather
than rejected, and no later stage of the pipeline can produce the
INPUT_VALIDATION_ERROR code. -/
theorem c6_input_validation (input : JsonLoadInput) (w : World)
    (options : SafeJsonLoaderOptions) :
    (ensureStringInput input = "" →
      loadSafeJsonResources input w options =
        ([], .error (.loader ⟨"Input path/URL must be a non-empty string.",
            "INPUT_VALIDATION_ERROR"⟩))) ∧
    (ensureStringInput input ≠ "" →
      ∀ e, (loadSafeJsonResources input w options).2 = .error (.loader e) →
        e.code ≠ "INPUT_VALIDATION_ERROR") := by
  constructor
  · intro hempty
    simp only [loadSafeJsonResources]
    rw [if_pos hempty]
  · intro hne e h
    have hmem : e.code ∈ postValidationCodes := by
      simp only [loadSafeJsonResources] at h
      rw [if_neg hne] at h
      cases hurl : isHttpUrl (ensureStringInput input) with
      | true =>
        rw [if_pos hurl] at h
        cases hrj : loadRemoteJson (ensureStringInput input) w
            (mergeOptions options) with
        | mk evs r =>
          cases r with
          | error f =>
            cases f with
            | loader e2 =>
              have hcode : e2.code ∈ postValidationCodes :=
                loadRemoteJson_code _ w _ e2 (by rw [hrj])
              simp only [hrj] at h
              cases h
              exact hcode
            | uncaught msg =>
              simp only [hrj] at h
              simp at h
          | ok json =>
            cases hix : isIndexShape json with
            | true =>
              cases hri : loadRemoteIndex (ensureStringInput input) json w
                  (mergeOptions options) with
              | mk evs2 r2 =>
                cases r2 with
                | error f =>
                  cases f with
                  | loader e2 =>
                    have hcode : e2.code ∈ postValidationCodes :=
                      loadRemoteIndex_code _ json w _ e2 (by rw [hri])
                    simp only [hrj] at h
                    rw [if_pos hix] at h
                    simp only [hri] at h
                    cases h
                    exact hcode
                  | uncaught msg =>
                    simp only [hrj] at h
                    rw [if_pos hix] at h
                    simp only [hri] at h
                    simp at h
                | ok fs =>
                  simp only [hrj] at h
                  rw [if_pos hix] at h
                  simp only [hri] at h
                  simp at h
            | false =>
              simp only [hrj] at h
              rw [if_neg (by simp [hix])] at h
              simp at h
      | false =>
        rw [if_neg (by simp [hurl])] at h
        cases hst : w.stat (w.resolve (ensureStringInput input)) with
        | missing =>
          simp only [hst] at h
          cases h
          simp [postValidationCodes]
        | fileEntry size parseRes =>
          cases hjf : isJsonFile (w.resolve (ensureStringInput input)) with
          | false =>
            simp only [hst] at h
            rw [if_pos (by simp [hjf])] at h
            cases h
            simp [postValidationCodes]
          | true =>
            cases hlf : loadLocalJsonFile (w.resolve (ensureStringInput input)) w
                (mergeOptions options) with
            | mk evs r =>
              cases r with
              | error f =>
                cases f with
                | loader e2 =>
                  have hcode : e2.code ∈ postValidationCodes :=
                    loadLocalJsonFile_code _ w _ e2 (by rw [hlf])
                  simp only [hst] at h
                  rw [if_neg (by simp [hjf])] at h
                  simp only [hlf] at h
                  cases h
                  exact hcode
                | uncaught msg =>
                  simp only [hst] at h
                  rw [if_neg (by simp [hjf])] at h
                  simp only [hlf] at h
                  simp at h
              | ok f =>
                simp only [hst] at h
                rw [if_neg (by simp [hjf])] at h
                simp only [hlf] at h
                simp at h
        | dirEntry entries =>
          cases hld : loadLocalDirectory (w.resolve (ensureStringInput input))
              entries w (mergeOptions options) with
          | mk evs r =>
            cases r with
            | error f =>
              cases f with
              | loader e2 =>
                have hcode : e2.code ∈ postValidationCodes :=
                  loadLocalDirectory_code _ entries w _ e2 (by rw [hld])
                simp only [hst, hld] at h
                cases h
                exact hcode
              | uncaught msg =>
                simp only [hst, hld] at h
                simp at h
            | ok fs =>
              simp only [hst, hld] at h
              simp at h
        | otherEntry =>
          simp only [hst] at h
          cases h
          simp [postValidationCodes]
    intro hceq
    rw [hceq] at hmem
    exact absurd hmem (by decide)

/-- A world with nothing reachable, used by the C6 witness. -/
def c6EmptyWorld : World :=
  ⟨fun _ => .missing, fun _ => .error "offline", fun s => s⟩

/-- Witness for C6: the empty string is rejected with no I/O, and a
nonempty input that fails does so with a different code. -/
theorem c6_witness :
    loadSafeJsonResources (.strInput "") c6EmptyWorld noOptions =
      ([], .error (.loader ⟨"Input path/URL must be a non-empty string.",
          "INPUT_VALIDATION_ERROR"⟩)) ∧
    "LOCAL_PATH_NOT_FOUND" ≠ "INPUT_VALIDATION_ERROR" := by
  have h1 := (c6_input_validation (.strInput "") c6EmptyWorld noOptions).1 (by rfl)
  have h2 := (c6_input_validation (.strInput "missing.json") c6EmptyWorld
      noOptions).2 (by decide)
    ⟨"Local path does not exist: missing.json", "LOCAL_PATH_NOT_FOUND"⟩ (by rfl)
  exact ⟨h1, h2⟩

/- ------------------------------------------------------------------ -/
/- Claim C7                                                            -/
/- ------------------------------------------------------------------ -/

theorem fetchIndexSeq_names (indexUrl : String) (w : World)
    (opts : ResolvedSafeJsonLoaderOptions) :
    ∀ (urls : List String) (fs : List LoadedJsonFile),
      (fetchIndexSeq indexUrl w opts urls).2 = .ok fs →
      ∀ f ∈ fs, f.name = basename (urlPathname f.__source) := by
  intro urls
  induction urls with
  | nil =>
    intro fs h
    simp only [fetchIndexSeq] at h
    cases h
    intro f hf
    simp at hf
  | cons u rest ih =>
    intro fs h
    cases hu : isHttpUrl u with
    | false =>
      simp only [fetchIndexSeq, hu, Bool.not_false, if_true] at h
      exact Except.noConfusion h
    | true =>
      cases hrj : loadRemoteJson u w opts with
      | mk evs r =>
        cases r with
        | error f2 =>
          simp only [fetchIndexSeq, hu, Bool.not_true, Bool.false_eq_true,
            if_false, hrj] at h
          exact Except.noConfusion h
        | ok data =>
          cases hrec : fetchIndexSeq indexUrl w opts rest with
          | mk evs2 r2 =>
            cases r2 with
            | error f2 =>
              simp only [fetchIndexSeq, hu, Bool.not_true, Bool.false_eq_true,
                if_false, hrj, hrec] at h
              exact Except.noConfusion h
            | ok fs2 =>
              simp only [fetchIndexSeq, hu, Bool.not_true, Bool.false_eq_true,
                if_false, hrj, hrec] at h
              cases h
              intro f hf
              rcases List.mem_cons.mp hf with h1 | h1
              · subst h1; rfl
              · exact ih fs2 (by rw [hrec]) f h1

/-- C7 amended: a local LoadedFile and every remote-index LoadedFile carry
the basename of their source as name; a single remote non-index document
instead carries the full URL pathname as its name. -/
theorem c7_loaded_file_names :
    (∀ p w opts f, (loadLocalJsonFile p w opts).2 = .ok f →
      f.name = basename f.__source ∧ f.__source = p) ∧
    (∀ iu json w opts fs, (loadRemoteIndex iu json w opts).2 = .ok fs →
      ∀ f ∈ fs, f.name = basename (urlPathname f.__source)) ∧
    (∀ input w options evs json fs,
      isHttpUrl (ensureStringInput input) = true →
      loadRemoteJson (ensureStringInput input) w (mergeOptions options)
        = (evs, .ok json) →
      isIndexShape json = false →
      (loadSafeJsonResources input w options).2 = .ok fs →
      fs = [⟨urlPathname (ensureStringInput input), json,
        ensureStringInput input⟩]) := by
  refine ⟨?_, ?_, ?_⟩
  · intro p w opts f h
    cases hst : w.stat p with
    | fileEntry size parseRes =>
      by_cases hsz : size > opts.maxFileBytes
      · simp only [loadLocalJsonFile, hst] at h
        rw [if_pos hsz] at h
        exact Except.noConfusion h
      · cases parseRes with
        | error msg =>
          simp only [loadLocalJsonFile, hst] at h
          rw [if_neg hsz] at h
          exact Except.noConfusion h
        | ok raw =>
          cases hsan : sanitizePrototypePollution raw (some opts.maxJsonDepth) with
          | error e2 =>
            simp only [loadLocalJsonFile, hst, hsan] at h
            rw [if_neg hsz] at h
            exact Except.noConfusion h
          | ok sanitized =>
            by_cases hdep : calculateDepth sanitized 0 > opts.maxJsonDepth
            · simp only [loadLocalJsonFile, hst, hsan] at h
              rw [if_neg hsz, if_pos hdep] at h
              exact Except.noConfusion h
            · simp only [loadLocalJsonFile, hst, hsan] at h
              rw [if_neg hsz, if_neg hdep] at h
              cases h
              exact ⟨rfl, rfl⟩
    | missing => simp [loadLocalJsonFile, hst] at h
    | dirEntry entries => simp [loadLocalJsonFile, hst] at h
    | otherEntry => simp [loadLocalJsonFile, hst] at h
  · intro iu json w opts fs h
    cases hfl : indexFileList json with
    | none =>
      simp only [loadRemoteIndex, hfl] at h
      exact Except.noConfusion h
    | some items =>
      by_cases hz : (items.filterMap asStringItem).length = 0
      · simp only [loadRemoteIndex, hfl] at h
        rw [if_pos hz] at h
        cases h
        intro f hf
        simp at hf
      · by_cases hl : (items.filterMap asStringItem).length > opts.maxFiles
        · simp only [loadRemoteIndex, hfl] at h
          rw [if_neg hz, if_pos hl] at h
          exact Except.noConfusion h
        · simp only [loadRemoteIndex, hfl] at h
          rw [if_neg hz, if_neg hl] at h
          exact fetchIndexSeq_names iu w opts _ fs h
  · intro input w options evs json fs hurl hrj hix h
    have hne : ¬ (ensureStringInput input = "") := by
      intro hc
      rw [hc] at hurl
      exact absurd hurl (by decide)
    simp only [loadSafeJsonResources] at h
    rw [if_neg hne, if_pos hurl] at h
    simp only [hrj] at h
    rw [if_neg (by simp [hix])] at h
    cases h
    rfl

/-- A world serving a non-index JSON document at a nested path. -/
def c7World : World :=
  ⟨fun _ => .missing,
   fun _ => .ok ⟨true, 200, "OK", some "application/json",
      .ok (.vobj true [("k", .vstr "v")])⟩,
   fun s => s⟩

/-- C7 counterexample: the single remote document is named by the full URL
pathname, not by the display basename the claim requires. -/
theorem c7_counterexample :
    (loadSafeJsonResources (.strInput "https://example.com/data/config.json")
        c7World noOptions).2
      = .ok [⟨"/data/config.json", .vobj false [("k", .vstr "v")],
          "https://example.com/data/config.json"⟩] ∧
    "/data/config.json"
      ≠ basename (urlPathname "https://example.com/data/config.json") ∧
    basename (urlPathname "https://example.com/data/config.json")
      = "config.json" := by
  refine ⟨by rfl, by decide, by rfl⟩

/-- A world with one small local JSON file. -/
def c7LocalWorld : World :=
  ⟨fun _ => .fileEntry 4 (.ok (.vbool true)), fun _ => .error "offline",
   fun s => s⟩

/-- Witness for C7: a concrete local load names its record by the basename
of its source. -/
theorem c7_witness :
    (⟨"a.json", JsValue.vbool true, "/cfg/a.json"⟩ : LoadedJsonFile).name
      = basename
          (⟨"a.json", JsValue.vbool true, "/cfg/a.json"⟩ : LoadedJsonFile).__source :=
  ((c7_loaded_file_names).1 "/cfg/a.json" c7LocalWorld DEFAULT_OPTIONS
    ⟨"a.json", JsValue.vbool true, "/cfg/a.json"⟩ (by rfl)).1

/- ------------------------------------------------------------------ -/
/- Claim C9                                                            -/
/- ------------------------------------------------------------------ -/

/-- The limiter invariant: the active counter stays within the bound, the
running set matches the counter, the start log followed by the queue lists
the submissions in order, and the queue is only nonempty at capacity. -/
def LimiterInv (maxConcurrency : Nat) (s : LimiterState) : Prop :=
  s.active ≤ maxConcurrency ∧
  s.running.length = s.active ∧
  s.startedLog ++ s.queue = s.submittedLog ∧
  (s.queue ≠ [] → maxConcurrency ≤ s.active)

theorem limiterStep_inv {k : Nat} {s : LimiterState} (hs : LimiterInv k s)
    (e : LimiterEvent) (he : wfEvent s e = true) :
    LimiterInv k (limiterStep k s e) := by
  obtain ⟨h1, h2, h3, h4⟩ := hs
  cases e with
  | submit id =>
    by_cases hlt : s.active < k
    · have hq : s.queue = [] := by
        by_contra hq
        exact absurd (h4 hq) (by omega)
      have h3' : s.startedLog = s.submittedLog := by simpa [hq] using h3
      simp only [limiterStep]
      rw [if_pos hlt]
      dsimp only [LimiterInv]
      exact ⟨by omega, by simp [h2], by simp [hq, h3'], by simp [hq]⟩
    · simp only [limiterStep]
      rw [if_neg hlt]
      dsimp only [LimiterInv]
      refine ⟨h1, h2, ?_, fun _ => Nat.le_of_not_lt hlt⟩
      simp only [← List.append_assoc, h3]
  | settle id b =>
    have hidmem : id ∈ s.running := by simpa [wfEvent] using he
    have hpos : 1 ≤ s.active := by
      have hlp : 0 < s.running.length :=
        List.length_pos.mpr (List.ne_nil_of_mem hidmem)
      omega
    have hlen : (s.running.erase id).length = s.running.length - 1 :=
      List.length_erase_of_mem hidmem
    cases hq : s.queue with
    | nil =>
      have h3' : s.startedLog = s.submittedLog := by simpa [hq] using h3
      simp only [limiterStep, hq]
      dsimp only [LimiterInv]
      exact ⟨by omega, by omega, by simpa using h3', by simp⟩
    | cons q rest =>
      have hk : k ≤ s.active := h4 (by simp [hq])
      simp only [limiterStep, hq]
      dsimp only [LimiterInv]
      refine ⟨by omega, ?_, ?_, fun _ => by omega⟩
      · simp only [List.length_append, hlen]
        simp
        omega
      · rw [List.append_assoc]
        simpa [hq] using h3

theorem limiterFold_inv {k : Nat} :
    ∀ (events : List LimiterEvent) (s : LimiterState), LimiterInv k s →
      wfEventsFrom k s events = true →
      LimiterInv k (events.foldl (limiterStep k) s) := by
  intro events
  induction events with
  | nil => intro s hs _; simpa using hs
  | cons e rest ih =>
    intro s hs hwf
    simp only [wfEventsFrom, Bool.and_eq_true] at hwf
    exact ih _ (limiterStep_inv hs e hwf.1) hwf.2

theorem wfEventsFrom_append {k : Nat} :
    ∀ (p t : List LimiterEvent) (s : LimiterState),
      wfEventsFrom k s (p ++ t) = true → wfEventsFrom k s p = true := by
  intro p
  induction p with
  | nil => intro t s _; rfl
  | cons e rest ih =>
    intro t s h
    simp only [List.cons_append, wfEventsFrom, Bool.and_eq_true] at h ⊢
    exact ⟨h.1, ih t _ h.2⟩

/-- C9: with bound k and any well-formed event sequence: after every prefix
at most k tasks are in flight (both the active counter and the running
set), and the start log followed by the queue equals the submission log in
order, so queued tasks start strictly in FIFO submission order; moreover a
settlement through rejection updates the limiter exactly as one through
resolution, so a failing task still releases its slot. -/
theorem c9_limiter (k : Nat) (events : List LimiterEvent)
    (hwf : wfEventsFrom k limiterInit events = true) :
    (∀ p t, p ++ t = events →
      (limiterRun k p).active ≤ k ∧
      (limiterRun k p).running.length ≤ k ∧
      (limiterRun k p).startedLog ++ (limiterRun k p).queue
        = (limiterRun k p).submittedLog) ∧
    (∀ s id, limiterStep k s (.settle id false)
      = limiterStep k s (.settle id true)) := by
  constructor
  · intro p t hpt
    have hwfp : wfEventsFrom k limiterInit p = true := by
      rw [← hpt] at hwf
      exact wfEventsFrom_append p t _ hwf
    have hinv : LimiterInv k (limiterRun k p) :=
      limiterFold_inv p limiterInit
        ⟨Nat.zero_le k, rfl, rfl, fun hq => (hq rfl).elim⟩ hwfp
    refine ⟨hinv.1, ?_, hinv.2.2.1⟩
    have hlen := hinv.2.1
    have hact := hinv.1
    omega
  · intro s id
    rfl

/-- The events of the C9 witness: three submissions under bound 2, then
settlements including a rejection. -/
def c9Events : List LimiterEvent :=
  [.submit 0, .submit 1, .submit 2, .settle 0 false, .settle 1 true,
   .settle 2 true]

/-- Witness for C9 on a concrete trace prefix: after three submissions under
bound 2 at most two tasks run and starts plus queue equal the submissions
in order. -/
theorem c9_witness :
    (limiterRun 2 [LimiterEvent.submit 0, LimiterEvent.submit 1,
        LimiterEvent.submit 2]).active ≤ 2 ∧
    (limiterRun 2 [LimiterEvent.submit 0, LimiterEvent.submit 1,
        LimiterEvent.submit 2]).running.length ≤ 2 ∧
    (limiterRun 2 [LimiterEvent.submit 0, LimiterEvent.submit 1,
        LimiterEvent.submit 2]).startedLog
      ++ (limiterRun 2 [LimiterEvent.submit 0, LimiterEvent.submit 1,
        LimiterEvent.submit 2]).queue
      = (limiterRun 2 [LimiterEvent.submit 0, LimiterEvent.submit 1,
        LimiterEvent.submit 2]).submittedLog :=
  (c9_limiter 2 c9Events (by decide)).1
    [LimiterEvent.submit 0, LimiterEvent.submit 1, LimiterEvent.submit 2]
    [LimiterEvent.settle 0 false, LimiterEvent.settle 1 true,
     LimiterEvent.settle 2 true] (by rfl)

/- ------------------------------------------------------------------ -/
/- Claim C10                                                           -/
/- ------------------------------------------------------------------ -/

theorem isIndexShape_of_fileList {json : JsValue} {items : List JsValue}
    (h : indexFileList json = some items) : isIndexShape json = true := by
  cases json with
  | varr its => rfl
  | vobj p fields =>
    simp only [indexFileList] at h
    cases hlk : lookupField fields "files" with
    | none => simp [hlk] at h
    | some v =>
      cases v with
      | varr its => simp [isIndexShape, hlk]
      | vstr s => simp [hlk] at h
      | vnum n => simp [hlk] at h
      | vbool b => simp [hlk] at h
      | vnull => simp [hlk] at h
      | vobj p2 f2 => simp [hlk] at h
  | vstr s => simp [indexFileList] at h
  | vnum n => simp [indexFileList] at h
  | vbool b => simp [indexFileList] at h
  | vnull => simp [indexFileList] at h

/-- C10: a directory whose listing has no .json entries and a remote index
whose file list has no string entries each make loadSafeJsonResources
resolve successfully with an empty array. -/
theorem c10_empty_sources (w : World) (options : SafeJsonLoaderOptions) :
    (∀ input entries,
      ensureStringInput input ≠ "" →
      isHttpUrl (ensureStringInput input) = false →
      w.stat (w.resolve (ensureStringInput input)) = .dirEntry entries →
      entries.filter isJsonFile = [] →
      (loadSafeJsonResources input w options).2 = .ok []) ∧
    (∀ input evs json items,
      isHttpUrl (ensureStringInput input) = true →
      loadRemoteJson (ensureStringInput input) w (mergeOptions options)
        = (evs, .ok json) →
      indexFileList json = some items →
      items.filterMap asStringItem = [] →
      (loadSafeJsonResources input w options).2 = .ok []) := by
  constructor
  · intro input entries hne hurl hstat hfilter
    have hld : (loadLocalDirectory (w.resolve (ensureStringInput input)) entries
        w (mergeOptions options)).2 = .ok [] := by
      simp only [loadLocalDirectory, hfilter]
      rw [if_pos (by simp)]
    simp only [loadSafeJsonResources]
    rw [if_neg hne, if_neg (by simp [hurl])]
    simp only [hstat]
    cases hldp : loadLocalDirectory (w.resolve (ensureStringInput input))
        entries w (mergeOptions options) with
    | mk evs r =>
      have hr : r = .ok [] := by
        rw [hldp] at hld
        exact hld
      subst hr
      simp only [hldp]
  · intro input evs json items hurl hrj hfl hfm
    have hne : ¬ (ensureStringInput input = "") := by
      intro hc
      rw [hc] at hurl
      exact absurd hurl (by decide)
    have hri : loadRemoteIndex (ensureStringInput input) json w
        (mergeOptions options) = ([], .ok []) := by
      simp only [loadRemoteIndex, hfl, hfm]
      rw [if_pos (by simp)]
    simp only [loadSafeJsonResources]
    rw [if_neg hne, if_pos hurl]
    simp only [hrj]
    rw [if_pos (isIndexShape_of_fileList hfl)]
    simp only [hri]

/-- World with a directory containing only non-json entries. -/
def c10DirWorld : World :=
  ⟨fun _ => .dirEntry ["notes.txt", "readme.md"], fun _ => .error "offline",
   fun s => s⟩

/-- World serving an index document whose entries are all non-strings. -/
def c10IndexWorld : World :=
  ⟨fun _ => .missing,
   fun _ => .ok ⟨true, 200, "OK", some "application/json",
      .ok (.varr [.vnum 1, .vbool true])⟩,
   fun s => s⟩

/-- Witness for C10 at concrete empty sources. -/
theorem c10_witness :
    (loadSafeJsonResources (.strInput "/data") c10DirWorld noOptions).2
      = .ok [] ∧
    (loadSafeJsonResources (.strInput "https://x/idx.json") c10IndexWorld
        noOptions).2 = .ok [] := by
  refine ⟨?_, ?_⟩
  · exact (c10_empty_sources c10DirWorld noOptions).1 (.strInput "/data")
      ["notes.txt", "readme.md"] (by decide) (by decide) (by rfl) (by decide)
  · exact (c10_empty_sources c10IndexWorld noOptions).2
      (.strInput "https://x/idx.json")
      [IoEvent.httpFetch "https://x/idx.json",
       IoEvent.parseAttempt "https://x/idx.json"]
      (.varr [.vnum 1, .vbool true]) [.vnum 1, .vbool true]
      (by decide) (by rfl) (by rfl) (by rfl)

end SafeJsonLoader
